import Mathlib

/-!
Verification of the tooie-shelf launcher core: identity resolution
(`internal/sys/android.go`), icon extraction (`internal/graphics/apk_extract.go`),
sixel render caching and hit testing (`internal/app/model.go`, `internal/app/update.go`).

Go strings are modelled as lists of Unicode code points (`GoStr`); Go byte
lengths are recovered through the UTF-8 encoded width of each code point.
Go `int` is modelled as `Int`, with `Int.tdiv` for Go's truncating division.
External collaborators (process execution, zip decoding, the sixel encoder)
are abstracted as parameters.
-/

namespace TooieShelf

/-- Model of a Go string: the list of its runes (Unicode code points). -/
abbrev GoStr := List Char

/-- Boolean test that `p` is a prefix of `s` (model of the check behind
`strings.HasPrefix s p`). -/
def listStarts : GoStr → GoStr → Bool
  | [], _ => true
  | _ :: _, [] => false
  | p :: ps, c :: cs => p = c && listStarts ps cs

/-- Model of Go `strings.HasPrefix s pre`. -/
def goStartsWith (pre s : GoStr) : Bool := listStarts pre s

/-- Model of Go `strings.HasSuffix s suf`. -/
def goEndsWith (suf s : GoStr) : Bool := listStarts suf.reverse s.reverse

/-- Model of Go `strings.Contains s sub` (substring containment). -/
def strContains : GoStr → GoStr → Bool
  | [], sub => decide (sub = [])
  | c :: cs, sub => listStarts sub (c :: cs) || strContains cs sub

/-- Model of Go `strings.Index s sub`: index of the first occurrence of `sub`
in `s`, `none` standing for Go's `-1`. -/
def strIndex : GoStr → GoStr → Option Nat
  | [], sub => if listStarts sub [] then some 0 else none
  | c :: cs, sub =>
      if listStarts sub (c :: cs) then some 0
      else (strIndex cs sub).map (· + 1)

/-- Model of Go `strings.TrimPrefix s pre`. -/
def goTrimStart (pre s : GoStr) : GoStr :=
  if goStartsWith pre s then s.drop pre.length else s

/-- Model of Go `strings.TrimSuffix s suf`. -/
def goTrimSuffix (suf s : GoStr) : GoStr :=
  if goEndsWith suf s then s.take (s.length - suf.length) else s

/-- Model of Go `strings.TrimSpace`. -/
def goTrimSpace (s : GoStr) : GoStr :=
  ((s.dropWhile Char.isWhitespace).reverse.dropWhile Char.isWhitespace).reverse

/-- Model of Go `strings.Trim s cutset` for a single-character cutset
(used as `strings.Trim part "'"`). -/
def goTrimChar (cut : Char) (s : GoStr) : GoStr :=
  ((s.dropWhile (· = cut)).reverse.dropWhile (· = cut)).reverse

/-- Model of Go `strings.Split s sep` for a one-character separator. -/
def goSplitChar (sep : Char) : GoStr → List GoStr
  | [] => [[]]
  | c :: cs =>
      if c = sep then [] :: goSplitChar sep cs
      else
        match goSplitChar sep cs with
        | g :: gs => (c :: g) :: gs
        | [] => [[c]]

/-- Split into lines, as `strings.Split output "\n"`. -/
def goLines (s : GoStr) : List GoStr := goSplitChar '\n' s

/-- Number of bytes of the UTF-8 encoding of one rune; Go's `len` on the
one-rune strings produced by `strings.Split(s, "")`. -/
def utf8Len (c : Char) : Nat :=
  if c.toNat < 0x80 then 1
  else if c.toNat < 0x800 then 2
  else if c.toNat < 0x10000 then 3
  else 4

/-- Model of Go `len s` (byte length) as an integer. -/
def goLen (s : GoStr) : Int := ((s.map utf8Len).sum : Nat)

/-- Model of Go `strings.ToLower` (ASCII case folding; the packages and
searches in the claims are unaffected by the full Unicode folding). -/
def goToLower (s : GoStr) : GoStr := s.map Char.toLower

/-- Model of Go `strings.ReplaceAll s old ""` for a one-character `old`:
removes every occurrence of that character. -/
def goRemoveChar (old : Char) (s : GoStr) : GoStr := s.filter (· ≠ old)

section StrLemmas

theorem listStarts_iff {p s : GoStr} : listStarts p s = true ↔ p <+: s := by
  induction p generalizing s with
  | nil => simp [listStarts]
  | cons a ps ih =>
    cases s with
    | nil => simp [listStarts]
    | cons c cs =>
      simp only [listStarts, Bool.and_eq_true, decide_eq_true_eq, ih,
        List.cons_prefix_cons]

theorem strContains_iff {s sub : GoStr} : strContains s sub = true ↔ sub <:+: s := by
  induction s with
  | nil => simp [strContains]
  | cons c cs ih =>
    simp only [strContains, Bool.or_eq_true, listStarts_iff, ih,
      List.infix_cons_iff]

/-- Mutual substring containment forces equality. -/
theorem strContains_antisymm {a b : GoStr}
    (h₁ : strContains a b = true) (h₂ : strContains b a = true) : a = b := by
  have hb := (strContains_iff.mp h₁).sublist
  have ha := (strContains_iff.mp h₂).sublist
  exact (hb.eq_of_length (Nat.le_antisymm hb.length_le ha.length_le)).symm ▸ rfl

theorem strContains_singleton_iff {s : GoStr} {c : Char} :
    strContains s [c] = true ↔ c ∈ s := by
  rw [strContains_iff]
  constructor
  · intro h; exact h.mem (List.mem_singleton_self c)
  · intro h
    obtain ⟨l, r, rfl⟩ := List.append_of_mem h
    exact ⟨l, r, by simp⟩

end StrLemmas

/-! ### Decimal rendering (model of `fmt.Sprintf` verbs `%d` and `%.2f`) -/

/-- Decimal digits of a natural number, most significant first. -/
def natDigits (n : Nat) : GoStr :=
  if _h : n < 10 then [Nat.digitChar n]
  else natDigits (n / 10) ++ [Nat.digitChar (n % 10)]
  decreasing_by exact Nat.div_lt_self (by omega) (by omega)

theorem digitChar_toNat {d : Nat} (h : d < 10) : (Nat.digitChar d).toNat = 48 + d := by
  interval_cases d <;> rfl

/-- Value recovered from a digit string (left inverse of `natDigits`). -/
def digitsVal (s : GoStr) : Nat := s.foldl (fun a c => 10 * a + (c.toNat - 48)) 0

theorem digitsVal_go (s : GoStr) (a : Nat) :
    s.foldl (fun a c => 10 * a + (c.toNat - 48)) a =
      a * 10 ^ s.length + digitsVal s := by
  induction s generalizing a with
  | nil => simp [digitsVal]
  | cons c cs ih =>
    simp only [List.foldl_cons, List.length_cons, digitsVal] at *
    rw [ih, ih (10 * 0 + (c.toNat - 48))]
    ring

theorem natDigits_ne_nil (n : Nat) : natDigits n ≠ [] := by
  rw [natDigits]
  split <;> simp

theorem natDigits_digit {n : Nat} {c : Char} (h : c ∈ natDigits n) :
    48 ≤ c.toNat ∧ c.toNat ≤ 57 := by
  induction n using Nat.strong_induction_on with
  | _ n ih =>
    rw [natDigits] at h
    split at h
    · next hn =>
      simp only [List.mem_singleton] at h
      subst h
      rw [digitChar_toNat hn]
      omega
    · next hn =>
      rcases List.mem_append.mp h with h' | h'
      · exact ih (n / 10) (Nat.div_lt_self (by omega) (by omega)) h'
      · simp only [List.mem_singleton] at h'
        subst h'
        have hm : n % 10 < 10 := Nat.mod_lt _ (by omega)
        rw [digitChar_toNat hm]
        omega

theorem digitsVal_natDigits (n : Nat) : digitsVal (natDigits n) = n := by
  induction n using Nat.strong_induction_on with
  | _ n ih =>
    rw [natDigits]
    split
    · next hn =>
      simp only [digitsVal, List.foldl_cons, List.foldl_nil]
      rw [digitChar_toNat hn]
      omega
    · next hn =>
      simp only [digitsVal, List.foldl_append, List.foldl_cons, List.foldl_nil]
      have h1 : (natDigits (n / 10)).foldl (fun a c => 10 * a + (c.toNat - 48)) 0
          = n / 10 := ih (n / 10) (Nat.div_lt_self (by omega) (by omega))
      rw [h1]
      have hm : n % 10 < 10 := Nat.mod_lt _ (by omega)
      rw [digitChar_toNat hm]
      omega

theorem natDigits_injective : Function.Injective natDigits := by
  intro a b h
  have := digitsVal_natDigits a
  rw [h, digitsVal_natDigits] at this
  omega

/-- Model of `fmt.Sprintf("%d", i)` for a Go `int`. -/
def intRepr (i : Int) : GoStr :=
  if i < 0 then '-' :: natDigits (-i).toNat else natDigits i.toNat

theorem toNat_dash : ('-').toNat = 45 := rfl

theorem toNat_underscore : ('_').toNat = 95 := rfl

theorem intRepr_injective : Function.Injective intRepr := by
  intro a b h
  unfold intRepr at h
  split at h <;> split at h
  · next ha hb =>
    injection h with _ h2
    have := natDigits_injective h2
    omega
  · next ha hb =>
    exfalso
    have hmem : '-' ∈ natDigits b.toNat := h ▸ List.mem_cons_self _ _
    have h1 := natDigits_digit hmem
    rw [toNat_dash] at h1
    omega
  · next ha hb =>
    exfalso
    have hmem : '-' ∈ natDigits a.toNat := h.symm ▸ List.mem_cons_self _ _
    have h1 := natDigits_digit hmem
    rw [toNat_dash] at h1
    omega
  · next ha hb =>
    have := natDigits_injective h
    omega

theorem intRepr_no_underscore {i : Int} {c : Char} (h : c ∈ intRepr i) : c ≠ '_' := by
  unfold intRepr at h
  intro hc
  subst hc
  split at h
  · rcases List.mem_cons.mp h with h' | h'
    · exact absurd h' (by decide)
    · have h1 := natDigits_digit h'
      rw [toNat_underscore] at h1
      omega
  · have h1 := natDigits_digit h
    rw [toNat_underscore] at h1
    omega

/-- The apostrophe character (kept out of literals). -/
def apostChar : Char := Char.ofNat 39

/-! ## Identity resolver (`internal/sys/android.go`) -/

/-- Embedding of `calculateMatchScore` from `internal/sys/android.go`:
score of a lower-cased package id against the normalized search name.
`strings.Split(search, "")` yields one-rune strings, so the `len(part) > 2`
guard tests the UTF-8 byte width of each search character. -/
def calculateMatchScore (pkg search : GoStr) : Int :=
  let pkgNoDots := goRemoveChar '.' pkg
  if pkgNoDots = search then 100
  else
    (if strContains pkgNoDots search then (50 : Int) else 0)
    + (if strContains search pkgNoDots then (30 : Int) else 0)
    + 5 * (search.countP fun c => decide (2 < utf8Len c) && strContains pkgNoDots [c])
    - Int.tdiv (goLen pkg) 10

/-- One line of `pm list packages` output as processed by `AutoDetectPackage`:
trimmed, with the `package:` label stripped. -/
def adpProcessLine (l : GoStr) : GoStr :=
  goTrimStart ("package:".toList) (goTrimSpace l)

/-- The candidate-selection loop of `AutoDetectPackage`: running best match and
best score over the package lines (`score > bestScore` keeps the first of any
tie). -/
def adpScan (search : GoStr) : List GoStr → GoStr → Int → GoStr × Int
  | [], best, bestScore => (best, bestScore)
  | l :: rest, best, bestScore =>
      let line := adpProcessLine l
      if line = [] then adpScan search rest best bestScore
      else
        let score := calculateMatchScore (goToLower line) search
        if bestScore < score then adpScan search rest line score
        else adpScan search rest best bestScore

/-- Normalization of the app name in `AutoDetectPackage`: lower-case, then
strip spaces and hyphens. -/
def normalizeAppName (appName : GoStr) : GoStr :=
  goRemoveChar '-' (goRemoveChar ' ' (goToLower appName))

/-- Embedding of `AutoDetectPackage`, with the `pm list packages` output as an
explicit input and the 24h result cache (external state) omitted. `none`
models the "no matching package found" error. -/
def autoDetectPackage (pmListOutput appName : GoStr) : Option GoStr :=
  let search := normalizeAppName appName
  let p := adpScan search (goLines pmListOutput) [] 0
  if p.1 = [] ∨ p.2 < 2 then none else some p.1

/-- The marker line `pm dump` prints for the main action. -/
def mainMarker : GoStr := "android.intent.action.MAIN".toList

/-- The marker line `pm dump` prints for the launcher category. -/
def launcherMarker : GoStr := "android.intent.category.LAUNCHER".toList

/-- The prefix of a component block header in `pm dump` output. -/
def activityHeader : GoStr := "Activity #".toList

/-- Activity-name extraction from a (trimmed) `Activity #` header line in
`parseMainActivity`. -/
def parseActivityFromLine (line pkg : GoStr) : GoStr :=
  match strIndex line pkg with
  | none => []
  | some idx =>
      let rest0 := line.drop idx
      let rest :=
        match strIndex rest0 [' '] with
        | some spaceIdx => rest0.take spaceIdx
        | none => rest0
      if strContains rest ['/'] then
        match goSplitChar '/' rest with
        | [p0, p1] => if goStartsWith ['.'] p1 then p0 ++ p1 else p1
        | _ => []
      else []

/-- The line scan of `parseMainActivity`, carrying the `inMainFilter` flag and
the `currentActivity` of the block in progress; returns `""` (here `[]`) when
no activity is found. -/
def pmaGo (pkg : GoStr) : List GoStr → Bool → GoStr → GoStr
  | [], inMainFilter, currentActivity =>
      if inMainFilter && !currentActivity.isEmpty then currentActivity else []
  | l :: rest, inMainFilter, currentActivity =>
      let line := goTrimSpace l
      let isHeader := goStartsWith activityHeader line
      if isHeader && inMainFilter && !currentActivity.isEmpty then currentActivity
      else
        let cur := if isHeader then parseActivityFromLine line pkg else currentActivity
        let inMain := (if isHeader then false else inMainFilter)
                      || strContains line mainMarker
        if strContains line launcherMarker && inMain && !cur.isEmpty then cur
        else pmaGo pkg rest inMain cur

/-- Embedding of `parseMainActivity` from `internal/sys/android.go`. -/
def parseMainActivity (output pkg : GoStr) : GoStr :=
  pmaGo pkg (goLines output) false []

/-- Whether a raw line is a component block header (after trimming). -/
def isActivityHeaderLine (l : GoStr) : Bool :=
  goStartsWith activityHeader (goTrimSpace l)

/-- Whether a (trimmed) line carries the main-action marker. -/
def hasMainLine (l : GoStr) : Bool := strContains (goTrimSpace l) mainMarker

/-- Whether a (trimmed) line carries the launcher-category marker. -/
def hasLauncherLine (l : GoStr) : Bool := strContains (goTrimSpace l) launcherMarker

/-- The activity parsed from a raw header line. -/
def lineActivity (pkg l : GoStr) : GoStr := parseActivityFromLine (goTrimSpace l) pkg

/-- Whether some line of a block carries the main-action marker. -/
def blockHasMain (ls : List GoStr) : Bool := ls.any hasMainLine

/-- Specification-side description of `parseMainActivity` (the amended claim's
words): the input is cut into component blocks at `Activity #` headers, and
the activity of the first block that parses to a non-empty activity name and
contains the main-action marker anywhere in the block (header line included)
is returned; `[]` when no block qualifies. -/
def specMainActivity (pkg : GoStr) : List GoStr → GoStr
  | [] => []
  | l :: rest =>
      if isActivityHeaderLine l then
        let a := lineActivity pkg l
        let body := rest.takeWhile fun x => !isActivityHeaderLine x
        if !a.isEmpty && (hasMainLine l || blockHasMain body)
        then a
        else specMainActivity pkg (rest.dropWhile fun x => !isActivityHeaderLine x)
      else specMainActivity pkg rest
termination_by ls => ls.length
decreasing_by
  · exact Nat.lt_succ_of_le ((List.dropWhile_sublist _).length_le)
  · exact Nat.lt_succ_self _

/-! ## aapt2 badging parse (`getIconPathFromAAPT2` in `apk_extract.go`) -/

/-- Extraction of the `icon='...'` assignment from an `application:` line:
`strings.Index(line, "icon='")`, then the text up to the closing quote. -/
def extractIconAssign (line : GoStr) : Option GoStr :=
  match strIndex line ("icon=".toList ++ [apostChar]) with
  | none => none
  | some idx =>
      let start := idx + 6
      match strIndex (line.drop start) [apostChar] with
      | none => none
      | some endIdx => some ((line.drop start).take endIdx)

/-- First loop of `getIconPathFromAAPT2`: scan for an `application:` line and
return its icon path, substituting `.xml` by `.png`; an assignment with any
other extension (or a line without one) is skipped. -/
def aaptAppLineIcon : List GoStr → Option GoStr
  | [] => none
  | l :: rest =>
      if goStartsWith ("application:".toList) l then
        match extractIconAssign l with
        | some iconPath =>
            if goEndsWith (".xml".toList) iconPath then
              some (goTrimSuffix (".xml".toList) iconPath ++ ".png".toList)
            else if goEndsWith (".png".toList) iconPath then some iconPath
            else aaptAppLineIcon rest
        | none => aaptAppLineIcon rest
      else aaptAppLineIcon rest

/-- Whether all characters are decimal digits. -/
def allDigits (s : GoStr) : Bool := s.all fun c => 48 ≤ c.toNat && c.toNat ≤ 57

/-- Model of `strconv.Atoi` with the error discarded (the code ignores the
error, leaving `0`). -/
def goAtoi (s : GoStr) : Int :=
  match s with
  | '-' :: rest => if rest ≠ [] ∧ allDigits rest then -(digitsVal rest : Int) else 0
  | '+' :: rest => if rest ≠ [] ∧ allDigits rest then (digitsVal rest : Int) else 0
  | _ => if s ≠ [] ∧ allDigits s then (digitsVal s : Int) else 0

/-- Model of `strings.SplitN s sep 2` for a one-character separator. -/
def goSplitN2 (sep : Char) (s : GoStr) : List GoStr :=
  match strIndex s [sep] with
  | none => [s]
  | some i => [s.take i, s.drop (i + 1)]

/-- Parse of one `application-icon-<density>:` line: the declared density
(via `Atoi`, `0` on parse failure) and the quoted path. -/
def parseAppIconLine (line : GoStr) : Option (Int × GoStr) :=
  if goStartsWith ("application-icon-".toList) line then
    match goSplitN2 ':' line with
    | [p0, p1] =>
        some (goAtoi (goTrimStart ("application-icon-".toList) p0),
              goTrimChar apostChar p1)
    | _ => none
  else none

/-- Fallback loop of `getIconPathFromAAPT2` over `application-icon-` lines:
a `.png` path replaces the running candidate when its density is strictly
higher; an `.xml` path is recorded (converted to `.png`) only while no
candidate exists. -/
def aaptFallbackScan : List GoStr → GoStr → Int → GoStr × Int
  | [], icon, res => (icon, res)
  | l :: rest, icon, res =>
      match parseAppIconLine l with
      | none => aaptFallbackScan rest icon res
      | some (r, path) =>
          if goEndsWith (".png".toList) path then
            if res < r then aaptFallbackScan rest path r
            else aaptFallbackScan rest icon res
          else if goEndsWith (".xml".toList) path && icon.isEmpty then
            aaptFallbackScan rest (goTrimSuffix (".xml".toList) path ++ ".png".toList) r
          else aaptFallbackScan rest icon res

/-- Embedding of `getIconPathFromAAPT2` with the `aapt2 dump badging` output
as an explicit input; `none` models the "no icon found via aapt2" error. -/
def getIconPathFromAAPT2 (output : GoStr) : Option GoStr :=
  match aaptAppLineIcon (goLines output) with
  | some p => some p
  | none =>
      let p := aaptFallbackScan (goLines output) [] 0
      if p.1.isEmpty then none else some p.1

/-! ## APK icon extraction (`extractIconFromAPK` in `apk_extract.go`) -/

/-- A zip entry as the extraction code sees it: whether opening+decoding
yields an image, and its uncompressed size. -/
structure ZipAsset (Img : Type) where
  decode : Option Img
  size : Nat

/-- The archive's file index (`fileMap`); an association list standing for the
Go map (zip entry names are unique). -/
def lookupFile {Img : Type} : List (GoStr × ZipAsset Img) → GoStr → Option (ZipAsset Img)
  | [], _ => none
  | (n, a) :: rest, name => if n = name then some a else lookupFile rest name

/-- The fixed density-ordered mipmap probe list of strategy 1. -/
def mipmapPatterns : List GoStr :=
  [ "res/mipmap-xxxhdpi-v4/ic_launcher.webp", "res/mipmap-xxxhdpi/ic_launcher.webp",
    "res/mipmap-xxhdpi-v4/ic_launcher.webp", "res/mipmap-xxhdpi/ic_launcher.webp",
    "res/mipmap-xhdpi-v4/ic_launcher.webp", "res/mipmap-xhdpi/ic_launcher.webp",
    "res/mipmap-hdpi-v4/ic_launcher.webp", "res/mipmap-hdpi/ic_launcher.webp",
    "res/mipmap-mdpi-v4/ic_launcher.webp", "res/mipmap-mdpi/ic_launcher.webp",
    "res/mipmap/ic_launcher.webp",
    "res/mipmap-xxxhdpi-v4/ic_launcher.png", "res/mipmap-xxxhdpi/ic_launcher.png",
    "res/mipmap-xxhdpi-v4/ic_launcher.png", "res/mipmap-xxhdpi/ic_launcher.png",
    "res/mipmap-xhdpi-v4/ic_launcher.png", "res/mipmap-xhdpi/ic_launcher.png",
    "res/mipmap-hdpi-v4/ic_launcher.png", "res/mipmap-hdpi/ic_launcher.png",
    "res/mipmap-mdpi-v4/ic_launcher.png", "res/mipmap-mdpi/ic_launcher.png",
    "res/mipmap/ic_launcher.png",
    "res/mipmap-xxxhdpi-v4/app_icon.webp", "res/mipmap-xxxhdpi/app_icon.webp",
    "res/mipmap-xxhdpi-v4/app_icon.webp", "res/mipmap-xxhdpi/app_icon.webp",
    "res/mipmap-xhdpi-v4/app_icon.webp", "res/mipmap-xhdpi/app_icon.webp",
    "res/mipmap-hdpi-v4/app_icon.webp", "res/mipmap-hdpi/app_icon.webp",
    "res/mipmap-mdpi-v4/app_icon.webp", "res/mipmap-mdpi/app_icon.webp",
    "res/mipmap/app_icon.webp",
    "res/mipmap-xxxhdpi-v4/app_icon.png", "res/mipmap-xxxhdpi/app_icon.png",
    "res/mipmap-xxhdpi-v4/app_icon.png", "res/mipmap-xxhdpi/app_icon.png",
    "res/mipmap-xhdpi-v4/app_icon.png", "res/mipmap-xhdpi/app_icon.png",
    "res/mipmap-hdpi-v4/app_icon.png", "res/mipmap-hdpi/app_icon.png",
    "res/mipmap-mdpi-v4/app_icon.png", "res/mipmap-mdpi/app_icon.png",
    "res/mipmap/app_icon.png" ].map String.toList

/-- The fixed density-ordered drawable probe list of strategy 4. -/
def drawablePatterns : List GoStr :=
  [ "res/drawable-xxxhdpi-v4/ic_launcher.png", "res/drawable-xxxhdpi/ic_launcher.png",
    "res/drawable-xxhdpi-v4/ic_launcher.png", "res/drawable-xxhdpi/ic_launcher.png",
    "res/drawable-xhdpi-v4/ic_launcher.png", "res/drawable-xhdpi/ic_launcher.png",
    "res/drawable-hdpi-v4/ic_launcher.png", "res/drawable-hdpi/ic_launcher.png",
    "res/drawable-mdpi-v4/ic_launcher.png", "res/drawable-mdpi/ic_launcher.png",
    "res/drawable/ic_launcher.png",
    "res/drawable-xxxhdpi-v4/ic_launcher.webp", "res/drawable-xxxhdpi/ic_launcher.webp",
    "res/drawable-xxhdpi-v4/ic_launcher.webp", "res/drawable-xxhdpi/ic_launcher.webp",
    "res/drawable-xhdpi-v4/ic_launcher.webp", "res/drawable-xhdpi/ic_launcher.webp",
    "res/drawable-hdpi-v4/ic_launcher.webp", "res/drawable-hdpi/ic_launcher.webp",
    "res/drawable-mdpi-v4/ic_launcher.webp", "res/drawable-mdpi/ic_launcher.webp",
    "res/drawable/ic_launcher.webp" ].map String.toList

section Extraction

variable {Img : Type}

/-- A pattern loop (strategies 1 and 4): first listed path that exists in the
index and decodes; a decode failure is non-fatal and the loop continues. -/
def tryPatterns (fm : List (GoStr × ZipAsset Img)) : List GoStr → Option (Img × GoStr)
  | [] => none
  | p :: rest =>
      match lookupFile fm p with
      | some a =>
          match a.decode with
          | some img => some (img, p)
          | none => tryPatterns fm rest
      | none => tryPatterns fm rest

/-- Decode the index entry at one exact path. -/
def tryPath (fm : List (GoStr × ZipAsset Img)) (path : GoStr) : Option (Img × GoStr) :=
  match lookupFile fm path with
  | some a => (a.decode).map (fun img => (img, path))
  | none => none

/-- The shared body of strategies 2 and 3: try the collaborator-returned path
directly, and when it names an `.xml` vector resource, try the `.png`
substitute. -/
def tryResolvedPath (fm : List (GoStr × ZipAsset Img)) (iconPath : GoStr) :
    Option (Img × GoStr) :=
  match tryPath fm iconPath with
  | some r => some r
  | none =>
      if goEndsWith (".xml".toList) iconPath then
        tryPath fm (goTrimSuffix (".xml".toList) iconPath ++ ".png".toList)
      else none

/-- Strategy 5's scan for the largest mipmap-named png/webp entry (strict
`>` with a zero start, so empty and zero-sized entries are never picked).
The Go code ranges over a map in unspecified order; the index list order
stands in for one such order. -/
def largestMipmap : List (GoStr × ZipAsset Img) → Option (GoStr × ZipAsset Img) →
    Option (GoStr × ZipAsset Img)
  | [], best => best
  | (n, a) :: rest, best =>
      if strContains n ("mipmap".toList)
          && (goEndsWith (".png".toList) n || goEndsWith (".webp".toList) n)
          && (match best with
              | none => decide (0 < a.size)
              | some (_, b) => decide (b.size < a.size)) then
        largestMipmap rest (some (n, a))
      else largestMipmap rest best

/-- Embedding of `extractIconFromAPK`: the five prioritized strategies over
one archive. The external collaborators are explicit inputs: `adbIconPath`
is the result of `getIconPathViaADB` (`none` = unavailable or failed) and
`aapt2Output` the text of `aapt2 dump badging` (`none` = unavailable or
failed). Success returns the decoded image and its source path. -/
def extractIconFromAPK (fm : List (GoStr × ZipAsset Img)) (apkPath pkg : GoStr)
    (adbIconPath : Option GoStr) (aapt2Output : Option GoStr) :
    Option (Img × GoStr) :=
  match tryPatterns fm mipmapPatterns with
  | some r => some r
  | none =>
  match (if pkg ≠ [] then
           adbIconPath.bind fun p =>
             if p ≠ [] then tryResolvedPath fm p else none
         else none) with
  | some r => some r
  | none =>
  match (aapt2Output.bind fun out =>
           (getIconPathFromAAPT2 out).bind fun p =>
             if p ≠ [] then tryResolvedPath fm p else none) with
  | some r => some r
  | none =>
  match tryPatterns fm drawablePatterns with
  | some r => some r
  | none =>
  if strContains apkPath ("split_config.".toList) then none
  else
    match largestMipmap fm none with
    | some (n, a) => (a.decode).map (fun img => (img, n))
    | none => none

end Extraction

/-! ## Image normalizer (`ScaleImageAspectFit` in `apk_extract.go`) -/

/-- Go's `int(x)` conversion from `float64`: truncation toward zero, here on
exact rationals. -/
def goTruncQ (q : ℚ) : Int := if q < 0 then ⌈q⌉ else ⌊q⌋

/-- Embedding of `ScaleImageAspectFit` on image dimensions, with the float64
arithmetic carried out exactly in `ℚ` (the claims are settled at inputs where
the two agree). Returns the dimensions of the returned image. -/
def scaleImageAspectFit (srcW srcH maxW maxH : Int) : Int × Int :=
  if maxW ≤ 0 ∨ maxH ≤ 0 then (srcW, srcH)
  else
    let scaleW : ℚ := (maxW : ℚ) / (srcW : ℚ)
    let scaleH : ℚ := (maxH : ℚ) / (srcH : ℚ)
    let scale := if scaleH < scaleW then scaleH else scaleW
    let targetW := goTruncQ ((srcW : ℚ) * scale)
    let targetH := goTruncQ ((srcH : ℚ) * scale)
    (if targetW ≤ 0 then 1 else targetW, if targetH ≤ 0 then 1 else targetH)

/-! ## Resource-path hint cache (`getCachedIconPathWithTTL` in `apk_extract.go`) -/

/-- `iconPathCacheTTL = 7 * 24 * time.Hour`, in nanoseconds (`time.Duration`). -/
def iconPathCacheTTL : Int := 7 * 24 * 3600 * 1000000000

/-- One day in nanoseconds. -/
def nsPerDay : Int := 24 * 3600 * 1000000000

/-- Embedding of `getCachedIconPathWithTTL`: `now` is the current clock,
`statModTime` the hint file's modification time (`none` = `os.Stat` failed:
missing file), `readData` the file's content (`none` = `os.ReadFile` failed:
unreadable). The empty string models every cache-miss return. -/
def getCachedIconPathWithTTL (now : Int) (statModTime : Option Int)
    (readData : Option GoStr) : GoStr :=
  match statModTime with
  | none => []
  | some mt =>
      if iconPathCacheTTL < now - mt then []
      else
        match readData with
        | none => []
        | some data => goTrimSpace data

/-! ## Application model (`internal/app/model.go`, `internal/app/update.go`) -/

/-- `sys.CellDim`: pixel dimensions of one terminal cell. -/
structure CellDim where
  width : Int
  height : Int
deriving DecidableEq

/-- `graphics.SixelResult`: encoded sixel string and its pixel dimensions. -/
structure SixelResult where
  sixel : GoStr
  width : Int
  height : Int
deriving DecidableEq

/-- The Go zero value `graphics.SixelResult{}`. -/
def emptySixelResult : SixelResult := ⟨[], 0, 0⟩

/-- `config.AppConfig`, reduced to the fields the modelled operations read. -/
structure AppConfig where
  name : GoStr
  command : GoStr
  pkg : GoStr
deriving DecidableEq

/-- `app.Model`, restricted to the state the modelled operations touch. -/
structure GoModel (Img : Type) where
  termWidth : Int
  termHeight : Int
  gridColumns : Int
  gridRows : Int
  stylePadding : Int
  styleBorder : Bool
  displayApps : List AppConfig
  cellPx : CellDim
  ready : Bool
  icons : List (Option Img)
  sixelCache : List (GoStr × SixelResult)
  sixelsDrawn : Bool

/-- `NewModel`: fresh state with an empty render cache, `n` nil icons, and
the zero-valued geometry. -/
def newModel (Img : Type) (displayApps : List AppConfig)
    (cols rows pad : Int) (border : Bool) : GoModel Img :=
  { termWidth := 0, termHeight := 0, gridColumns := cols, gridRows := rows,
    stylePadding := pad, styleBorder := border, displayApps := displayApps,
    cellPx := ⟨0, 0⟩, ready := false,
    icons := List.replicate displayApps.length none,
    sixelCache := [], sixelsDrawn := false }

section AppModel

variable {Img : Type}

/-- `Model.ClearCache`: the render cache becomes a fresh empty map. -/
def clearCache (m : GoModel Img) : GoModel Img := { m with sixelCache := [] }

/-- `Model.GridCellSize`. -/
def gridCellSize (m : GoModel Img) : Int × Int :=
  if m.gridColumns ≤ 0 ∨ m.gridRows ≤ 0 then (0, 0)
  else (Int.tdiv m.termWidth m.gridColumns, Int.tdiv (m.termHeight - 1) m.gridRows)

/-- `Model.HitTest`: app index at terminal coordinates, `-1` when none. -/
def hitTest (m : GoModel Img) (x y : Int) : Int :=
  let cw := (gridCellSize m).1
  let ch := (gridCellSize m).2
  if cw ≤ 0 ∨ ch ≤ 0 then -1
  else
    let col := Int.tdiv x cw
    let row := Int.tdiv y ch
    if col < 0 ∨ m.gridColumns ≤ col then -1
    else if row < 0 ∨ m.gridRows ≤ row then -1
    else
      let index := row * m.gridColumns + col
      if (m.displayApps.length : Int) ≤ index then -1 else index

/-- Two-decimal rendering of a nonnegative rational, used by `fmt`'s `%.2f`
(half-up here; the tie-breaking rule is immaterial to the key claims, which
compare formatted values). -/
def fmt2abs (q : ℚ) : GoStr :=
  let n : Nat := (⌊q * 100 + 1 / 2⌋).toNat
  natDigits (n / 100) ++ '.' :: [Nat.digitChar (n / 10 % 10), Nat.digitChar (n % 10)]

/-- Model of `fmt.Sprintf("%.2f", scale)`. -/
def fmt2 (q : ℚ) : GoStr := if q < 0 then '-' :: fmt2abs (-q) else fmt2abs q

/-- The composite render-cache key
`fmt.Sprintf("%d_%d_%d_%.2f", index, widthCells, heightCells, scale)`. -/
def sixelCacheKey (index widthCells heightCells : Int) (scale : ℚ) : GoStr :=
  intRepr index ++ ['_'] ++ intRepr widthCells ++ ['_'] ++ intRepr heightCells
    ++ ['_'] ++ fmt2 scale

/-- Lookup in the render cache (the Go map access `m.SixelCache[key]`). -/
def assocFind : List (GoStr × SixelResult) → GoStr → Option SixelResult
  | [], _ => none
  | (k, v) :: rest, key => if k = key then some v else assocFind rest key

/-- The icon consulted by `getSixelContentWithDimensions`
(`index < len(m.Icons) && m.Icons[index] != nil`; a negative index would
panic in Go and is never produced by the callers — modelled as no icon). -/
def iconAt (m : GoModel Img) (index : Int) : Option Img :=
  if index < 0 then none else (m.icons.getD index.toNat none)

/-- Embedding of `getSixelContentWithDimensions`, parametrized by the sixel
renderer `render` (`graphics.RenderSixelWithDimensions`, an external
encoder). Returns the result, the updated model, and whether the call was a
cache hit (on a miss the renderer runs — when an icon is present — and the
result is stored under the key). -/
def getSixelContentWithDimensions (render : Img → Int → Int → CellDim → SixelResult)
    (m : GoModel Img) (index widthCells heightCells : Int) (scale : ℚ) :
    SixelResult × GoModel Img × Bool :=
  let key := sixelCacheKey index widthCells heightCells scale
  match assocFind m.sixelCache key with
  | some cached => (cached, m, true)
  | none =>
      let result :=
        match iconAt m index with
        | some img => render img widthCells heightCells m.cellPx
        | none => emptySixelResult
      (result, { m with sixelCache := (key, result) :: m.sixelCache }, false)

/-- The Bubble Tea messages handled by `Update` that touch model state. -/
inductive Msg (Img : Type) where
  | windowSize (w h : Int)
  | terminalGeometry (d : CellDim)
  | iconsLoaded (icons : List (Option Img))

/-- Embedding of `Update` (`internal/app/update.go`): the window-size message
is accepted only once; a geometry message is debounced when both cell
dimensions match the accepted ones and the model is ready, and otherwise
accepted, clearing the render cache and forcing a sixel redraw. Key and
mouse messages leave the modelled state unchanged. -/
def update (m : GoModel Img) : Msg Img → GoModel Img
  | .windowSize w h =>
      if m.termWidth = 0 ∧ m.termHeight = 0 then
        { m with termWidth := w, termHeight := h }
      else m
  | .terminalGeometry d =>
      if m.cellPx.width = d.width ∧ m.cellPx.height = d.height ∧ m.ready then m
      else
        { clearCache { m with cellPx := d, ready := true } with sixelsDrawn := false }
  | .iconsLoaded ic => { m with icons := ic }

/-- One observable state transition of the application: an `Update` message,
one render-cache lookup from the draw pass, or the end of the draw pass
(`m.SixelsDrawn = true`). -/
inductive AppStep (render : Img → Int → Int → CellDim → SixelResult) :
    GoModel Img → GoModel Img → Prop where
  | msg (m : GoModel Img) (msg : Msg Img) : AppStep render m (update m msg)
  | lookup (m : GoModel Img) (index w h : Int) (scale : ℚ) :
      AppStep render m (getSixelContentWithDimensions render m index w h scale).2.1
  | drawn (m : GoModel Img) : AppStep render m { m with sixelsDrawn := true }

/-- States reachable from a freshly constructed model. -/
def ReachableModel (render : Img → Int → Int → CellDim → SixelResult)
    (m : GoModel Img) : Prop :=
  ∃ displayApps cols rows pad border,
    Relation.ReflTransGen (AppStep render)
      (newModel Img displayApps cols rows pad border) m

/-- A cache entry computed under geometry `g`: either the zero value stored
when no icon was available, or an encoder output produced with `g`. -/
def entryUnderGeometry (render : Img → Int → Int → CellDim → SixelResult)
    (g : CellDim) (v : SixelResult) : Prop :=
  v = emptySixelResult ∨ ∃ img w h, v = render img w h g

/-- Every render-cache entry of `m` was computed under `m`'s accepted
geometry. -/
def cacheConsistent (render : Img → Int → Int → CellDim → SixelResult)
    (m : GoModel Img) : Prop :=
  ∀ kv ∈ m.sixelCache, entryUnderGeometry render m.cellPx kv.2

end AppModel

/-! ## Claim C9: resource-path hint cache TTL -/

/-- C9: a non-empty hint written at time `T` is returned (as the trimmed hint,
a cache hit) when read 6 days later, is reported as the empty string (a cache
miss) when read 8 days later, and a missing (`os.Stat` fails) or unreadable
(`os.ReadFile` fails) hint file is likewise a silent miss, never an error. -/
theorem hint_cache_ttl_window (t : Int) (hint : GoStr)
    (hne : goTrimSpace hint ≠ []) :
    getCachedIconPathWithTTL (t + 6 * nsPerDay) (some t) (some hint) = goTrimSpace hint ∧
    getCachedIconPathWithTTL (t + 6 * nsPerDay) (some t) (some hint) ≠ [] ∧
    getCachedIconPathWithTTL (t + 8 * nsPerDay) (some t) (some hint) = [] ∧
    (∀ rd, getCachedIconPathWithTTL (t + 6 * nsPerDay) none rd = []) ∧
    getCachedIconPathWithTTL (t + 6 * nsPerDay) (some t) none = [] := by
  have h6 : ¬ iconPathCacheTTL < t + 6 * nsPerDay - t := by
    unfold iconPathCacheTTL nsPerDay
    omega
  have h8 : iconPathCacheTTL < t + 8 * nsPerDay - t := by
    unfold iconPathCacheTTL nsPerDay
    omega
  have e1 : getCachedIconPathWithTTL (t + 6 * nsPerDay) (some t) (some hint)
      = goTrimSpace hint := by
    unfold getCachedIconPathWithTTL
    dsimp only
    rw [if_neg h6]
  have e3 : getCachedIconPathWithTTL (t + 8 * nsPerDay) (some t) (some hint) = [] := by
    unfold getCachedIconPathWithTTL
    dsimp only
    rw [if_pos h8]
  have e5 : getCachedIconPathWithTTL (t + 6 * nsPerDay) (some t) none = [] := by
    unfold getCachedIconPathWithTTL
    dsimp only
    rw [if_neg h6]
  exact ⟨e1, e1 ▸ hne, e3, fun rd => rfl, e5⟩

/-- Witness for C9 at `T = 0` with the hint `res/ic.png`. -/
theorem hint_cache_ttl_window_witness :
    goTrimSpace ("res/ic.png".toList) ≠ [] ∧
    (getCachedIconPathWithTTL (0 + 6 * nsPerDay) (some 0) (some ("res/ic.png".toList))
        = goTrimSpace ("res/ic.png".toList) ∧
     getCachedIconPathWithTTL (0 + 6 * nsPerDay) (some 0) (some ("res/ic.png".toList)) ≠ [] ∧
     getCachedIconPathWithTTL (0 + 8 * nsPerDay) (some 0) (some ("res/ic.png".toList)) = [] ∧
     (∀ rd, getCachedIconPathWithTTL (0 + 6 * nsPerDay) none rd = []) ∧
     getCachedIconPathWithTTL (0 + 6 * nsPerDay) (some 0) none = []) :=
  ⟨by decide, hint_cache_ttl_window 0 ("res/ic.png".toList) (by decide)⟩

/-! ## Claim C10: hit-test index safety -/

/-- C10: for every model state and every coordinate pair, `HitTest` yields
`-1` or an index strictly below `len(DisplayApps)` (and nonnegative), so a
non-negative result is a safe index; whenever the computed grid cell lies
outside the configured column/row range, or addresses a cell beyond the
configured app list, the result is `-1`. -/
theorem hitTest_unfold {Img : Type} (m : GoModel Img) (x y : Int) :
    hitTest m x y =
      if (gridCellSize m).1 ≤ 0 ∨ (gridCellSize m).2 ≤ 0 then -1
      else if Int.tdiv x (gridCellSize m).1 < 0 ∨
          m.gridColumns ≤ Int.tdiv x (gridCellSize m).1 then -1
      else if Int.tdiv y (gridCellSize m).2 < 0 ∨
          m.gridRows ≤ Int.tdiv y (gridCellSize m).2 then -1
      else if (m.displayApps.length : Int) ≤
          Int.tdiv y (gridCellSize m).2 * m.gridColumns + Int.tdiv x (gridCellSize m).1
        then -1
      else Int.tdiv y (gridCellSize m).2 * m.gridColumns + Int.tdiv x (gridCellSize m).1 :=
  rfl

theorem hitTest_safe {Img : Type} (m : GoModel Img) (x y : Int) :
    (hitTest m x y = -1 ∨
      (0 ≤ hitTest m x y ∧ hitTest m x y < (m.displayApps.length : Int))) ∧
    (∀ cw ch : Int, gridCellSize m = (cw, ch) → 0 < cw → 0 < ch →
      ((Int.tdiv x cw < 0 ∨ m.gridColumns ≤ Int.tdiv x cw ∨
        Int.tdiv y ch < 0 ∨ m.gridRows ≤ Int.tdiv y ch) → hitTest m x y = -1) ∧
      ((m.displayApps.length : Int) ≤ Int.tdiv y ch * m.gridColumns + Int.tdiv x cw →
        hitTest m x y = -1)) := by
  constructor
  · rw [hitTest_unfold]
    split_ifs with h1 h2 h3 h4
    · exact Or.inl rfl
    · exact Or.inl rfl
    · exact Or.inl rfl
    · exact Or.inl rfl
    · push_neg at h2 h3 h4
      refine Or.inr ⟨?_, h4⟩
      have hcolnn : 0 ≤ Int.tdiv x (gridCellSize m).1 := h2.1
      have hrownn : 0 ≤ Int.tdiv y (gridCellSize m).2 := h3.1
      have hcols : 0 ≤ m.gridColumns := le_of_lt (lt_of_le_of_lt h2.1 h2.2)
      have := mul_nonneg hrownn hcols
      omega
  · intro cw ch hg hcw hch
    rw [hitTest_unfold, hg]
    dsimp only
    constructor
    · intro hout
      rw [if_neg (by omega)]
      rcases hout with h | h | h | h
      · rw [if_pos (Or.inl h)]
      · rw [if_pos (Or.inr h)]
      · split_ifs with hA hB hC
        · rfl
        · rfl
        · rfl
        · exact absurd (Or.inl h) hB
      · split_ifs with hA hB hC
        · rfl
        · rfl
        · rfl
        · exact absurd (Or.inr h) hB
    · intro hbeyond
      rw [if_neg (by omega)]
      split_ifs <;> rfl

/-- Witness for C10 on a concrete 2×2 model with one app and an off-grid
coordinate. -/
theorem hitTest_safe_witness :
    (hitTest
        (newModel Unit [⟨"a".toList, [], []⟩] 2 2 0 false) 100 100 = -1 ∨
      (0 ≤ hitTest
          (newModel Unit [⟨"a".toList, [], []⟩] 2 2 0 false) 100 100 ∧
       hitTest
          (newModel Unit [⟨"a".toList, [], []⟩] 2 2 0 false) 100 100 <
         ((newModel Unit [⟨"a".toList, [], []⟩] 2 2 0 false).displayApps.length : Int))) :=
  (hitTest_safe (newModel Unit [⟨"a".toList, [], []⟩] 2 2 0 false) 100 100).1

/-! ## Claim C7: aspect-fit scaling -/

/-- C7 (amended): for positive source dimensions and positive bounds, both
returned dimensions are nonzero (at least 1), and each differs from the exact
aspect-preserving target `srcDim * scale` by strictly less than one pixel
whenever that exact target is at least one pixel — the aspect ratio is
preserved only up to this integer-truncation error (plus the clamp to 1), not
exactly. -/
theorem scaleImageAspectFit_shape (srcW srcH maxW maxH : Int)
    (hsw : 0 < srcW) (hsh : 0 < srcH) (hmw : 0 < maxW) (hmh : 0 < maxH) :
    1 ≤ (scaleImageAspectFit srcW srcH maxW maxH).1 ∧
    1 ≤ (scaleImageAspectFit srcW srcH maxW maxH).2 ∧
    (1 ≤ (srcW : ℚ) * min ((maxW : ℚ) / (srcW : ℚ)) ((maxH : ℚ) / (srcH : ℚ)) →
      |((scaleImageAspectFit srcW srcH maxW maxH).1 : ℚ) -
        (srcW : ℚ) * min ((maxW : ℚ) / (srcW : ℚ)) ((maxH : ℚ) / (srcH : ℚ))| < 1) ∧
    (1 ≤ (srcH : ℚ) * min ((maxW : ℚ) / (srcW : ℚ)) ((maxH : ℚ) / (srcH : ℚ)) →
      |((scaleImageAspectFit srcW srcH maxW maxH).2 : ℚ) -
        (srcH : ℚ) * min ((maxW : ℚ) / (srcW : ℚ)) ((maxH : ℚ) / (srcH : ℚ))| < 1) := by
  have hksel : (if (maxH : ℚ) / (srcH : ℚ) < (maxW : ℚ) / (srcW : ℚ)
        then (maxH : ℚ) / (srcH : ℚ) else (maxW : ℚ) / (srcW : ℚ)) =
      min ((maxW : ℚ) / (srcW : ℚ)) ((maxH : ℚ) / (srcH : ℚ)) := by
    rcases lt_or_le ((maxH : ℚ) / (srcH : ℚ)) ((maxW : ℚ) / (srcW : ℚ)) with h | h
    · rw [if_pos h, min_eq_right h.le]
    · rw [if_neg (not_lt.mpr h), min_eq_left h]
  set sc : ℚ := min ((maxW : ℚ) / (srcW : ℚ)) ((maxH : ℚ) / (srcH : ℚ)) with hsc
  have hscpos : 0 < sc := by
    apply lt_min
    · exact div_pos (by exact_mod_cast hmw) (by exact_mod_cast hsw)
    · exact div_pos (by exact_mod_cast hmh) (by exact_mod_cast hsh)
  have hqw : (0 : ℚ) ≤ (srcW : ℚ) * sc :=
    le_of_lt (mul_pos (by exact_mod_cast hsw) hscpos)
  have hqh : (0 : ℚ) ≤ (srcH : ℚ) * sc :=
    le_of_lt (mul_pos (by exact_mod_cast hsh) hscpos)
  have hres : scaleImageAspectFit srcW srcH maxW maxH =
      (if ⌊(srcW : ℚ) * sc⌋ ≤ 0 then 1 else ⌊(srcW : ℚ) * sc⌋,
       if ⌊(srcH : ℚ) * sc⌋ ≤ 0 then 1 else ⌊(srcH : ℚ) * sc⌋) := by
    unfold scaleImageAspectFit goTruncQ
    rw [if_neg (by omega)]
    simp only [hksel, hsc]
    rw [if_neg (not_lt.mpr hqw), if_neg (not_lt.mpr hqh)]
  rw [hres]
  refine ⟨?_, ?_, ?_, ?_⟩
  · dsimp only; split <;> omega
  · dsimp only; split <;> omega
  · intro h1
    have hfl : (1 : Int) ≤ ⌊(srcW : ℚ) * sc⌋ := by
      rw [Int.le_floor]
      exact_mod_cast h1
    dsimp only
    rw [if_neg (by omega)]
    rw [abs_lt]
    constructor
    · have := Int.lt_floor_add_one ((srcW : ℚ) * sc)
      linarith
    · have := Int.floor_le ((srcW : ℚ) * sc)
      linarith
  · intro h1
    have hfl : (1 : Int) ≤ ⌊(srcH : ℚ) * sc⌋ := by
      rw [Int.le_floor]
      exact_mod_cast h1
    dsimp only
    rw [if_neg (by omega)]
    rw [abs_lt]
    constructor
    · have := Int.lt_floor_add_one ((srcH : ℚ) * sc)
      linarith
    · have := Int.floor_le ((srcH : ℚ) * sc)
      linarith

/-- Counterexample for C7 as stated: a 4×1 source fit into 2×2 (all values
exactly representable in binary floating point, so Go computes the same)
returns 2×1 — the height was truncated to 0 and clamped to 1, halving the
aspect ratio, far beyond floating-point rounding error. -/
theorem scaleImageAspectFit_ratio_cex :
    scaleImageAspectFit 4 1 2 2 = (2, 1) ∧
    ((2 : ℚ) / (1 : ℚ) ≠ (4 : ℚ) / (1 : ℚ)) := by
  constructor
  · norm_num [scaleImageAspectFit, goTruncQ]
  · norm_num

/-- Witness for C7 at a 4×2 source fit into 2×2 (scale 1/2, exact targets
2 and 1). -/
theorem scaleImageAspectFit_shape_witness :
    1 ≤ (scaleImageAspectFit 4 2 2 2).1 ∧
    1 ≤ (scaleImageAspectFit 4 2 2 2).2 ∧
    (1 ≤ ((4 : Int) : ℚ) * min (((2 : Int) : ℚ) / ((4 : Int) : ℚ))
        (((2 : Int) : ℚ) / ((2 : Int) : ℚ)) →
      |((scaleImageAspectFit 4 2 2 2).1 : ℚ) -
        ((4 : Int) : ℚ) * min (((2 : Int) : ℚ) / ((4 : Int) : ℚ))
          (((2 : Int) : ℚ) / ((2 : Int) : ℚ))| < 1) ∧
    (1 ≤ ((2 : Int) : ℚ) * min (((2 : Int) : ℚ) / ((4 : Int) : ℚ))
        (((2 : Int) : ℚ) / ((2 : Int) : ℚ)) →
      |((scaleImageAspectFit 4 2 2 2).2 : ℚ) -
        ((2 : Int) : ℚ) * min (((2 : Int) : ℚ) / ((4 : Int) : ℚ))
          (((2 : Int) : ℚ) / ((2 : Int) : ℚ))| < 1) :=
  scaleImageAspectFit_shape 4 2 2 2 (by norm_num) (by norm_num)
    (by norm_num) (by norm_num)

/-! ## Claim C8: per-character score contribution -/

/-- The containment and length-penalty contributions of `calculateMatchScore`,
without the per-character loop. -/
def baseMatchScore (pkg search : GoStr) : Int :=
  (if strContains (goRemoveChar '.' pkg) search then (50 : Int) else 0)
  + (if strContains search (goRemoveChar '.' pkg) then (30 : Int) else 0)
  - Int.tdiv (goLen pkg) 10

/-- The number of search characters whose one-rune string has byte length
greater than 2 and occurs in the dot-stripped candidate. -/
def charHitCount (pkg search : GoStr) : Nat :=
  search.countP fun c => decide (2 < utf8Len c) && strContains (goRemoveChar '.' pkg) [c]

/-- C8: on every non-exact candidate the fuzzy score decomposes as the
containment-and-penalty base plus `+5` per qualifying search character, and
at a concrete pair (search `世`, candidate `世界`) one such character makes
the total (55) strictly larger than the base (50). -/
theorem match_score_char_contribution :
    (∀ pkg search : GoStr, goRemoveChar '.' pkg ≠ search →
      calculateMatchScore pkg search =
        baseMatchScore pkg search + 5 * (charHitCount pkg search : Int)) ∧
    charHitCount ['世', '界'] ['世'] = 1 ∧
    calculateMatchScore ['世', '界'] ['世'] = 55 ∧
    baseMatchScore ['世', '界'] ['世'] = 50 ∧
    baseMatchScore ['世', '界'] ['世'] < calculateMatchScore ['世', '界'] ['世'] := by
  refine ⟨?_, by decide, by decide, by decide, by decide⟩
  intro pkg search hne
  unfold calculateMatchScore baseMatchScore charHitCount
  rw [if_neg hne]
  ring

/-- Witness for C8's universal part at the concrete pair from the theorem. -/
theorem match_score_char_contribution_witness :
    goRemoveChar '.' ['世', '界'] ≠ ['世'] ∧
    calculateMatchScore ['世', '界'] ['世'] =
      baseMatchScore ['世', '界'] ['世'] + 5 * (charHitCount ['世', '界'] ['世'] : Int) :=
  ⟨by decide, match_score_char_contribution.1 ['世', '界'] ['世'] (by decide)⟩

/-! ## Claim C5: render-cache key semantics -/

theorem fmt2abs_no_underscore {q : ℚ} {c : Char} (h : c ∈ fmt2abs q) : c ≠ '_' := by
  unfold fmt2abs at h
  intro hc
  subst hc
  rcases List.mem_append.mp h with h' | h'
  · have h1 := natDigits_digit h'
    rw [toNat_underscore] at h1
    omega
  · rcases List.mem_cons.mp h' with h'' | h''
    · exact absurd h'' (by decide)
    · rcases List.mem_cons.mp h'' with h3 | h3
      · have h1 : ((⌊q * 100 + 1 / 2⌋).toNat / 10 % 10) < 10 := Nat.mod_lt _ (by omega)
        have := digitChar_toNat h1
        rw [← h3, toNat_underscore] at this
        omega
      · rcases List.mem_cons.mp h3 with h4 | h4
        · have h1 : ((⌊q * 100 + 1 / 2⌋).toNat % 10) < 10 := Nat.mod_lt _ (by omega)
          have := digitChar_toNat h1
          rw [← h4, toNat_underscore] at this
          omega
        · exact absurd h4 (List.not_mem_nil _)

theorem fmt2_no_underscore {q : ℚ} {c : Char} (h : c ∈ fmt2 q) : c ≠ '_' := by
  unfold fmt2 at h
  split at h
  · rcases List.mem_cons.mp h with h' | h'
    · intro hc; subst hc; exact absurd h' (by decide)
    · exact fmt2abs_no_underscore h'
  · exact fmt2abs_no_underscore h

/-- Splitting at an underscore separator is unambiguous when neither field
contains an underscore. -/
theorem append_underscore_inj {a : GoStr} :
    ∀ {b x y : GoStr}, (∀ c ∈ a, c ≠ '_') → (∀ c ∈ b, c ≠ '_') →
      a ++ '_' :: x = b ++ '_' :: y → a = b ∧ x = y := by
  induction a with
  | nil =>
    intro b x y _ hb h
    cases b with
    | nil => simpa using h
    | cons d ds =>
      exfalso
      rw [List.nil_append] at h
      have hd : d = '_' := (List.cons.injEq _ _ _ _ ▸ h).1.symm
      exact hb d (List.mem_cons_self _ _) hd
  | cons c cs ih =>
    intro b x y ha hb h
    cases b with
    | nil =>
      exfalso
      rw [List.nil_append] at h
      have hc : c = '_' := (List.cons.injEq _ _ _ _ ▸ h).1
      exact ha c (List.mem_cons_self _ _) hc
    | cons d ds =>
      simp only [List.cons_append, List.cons.injEq] at h
      obtain ⟨h1, h2⟩ := h
      obtain ⟨h3, h4⟩ := ih (fun e he => ha e (List.mem_cons_of_mem _ he))
        (fun e he => hb e (List.mem_cons_of_mem _ he)) h2
      exact ⟨by rw [h1, h3], h4⟩

/-- The composite key determines the app index, the two cell dimensions, and
the two-decimal formatting of the scale. -/
theorem sixelCacheKey_inj {i1 w1 h1 i2 w2 h2 : Int} {s1 s2 : ℚ}
    (h : sixelCacheKey i1 w1 h1 s1 = sixelCacheKey i2 w2 h2 s2) :
    i1 = i2 ∧ w1 = w2 ∧ h1 = h2 ∧ fmt2 s1 = fmt2 s2 := by
  unfold sixelCacheKey at h
  simp only [List.append_assoc, List.singleton_append] at h
  have hnu : ∀ i : Int, ∀ c ∈ intRepr i, c ≠ '_' :=
    fun _ _ hc => intRepr_no_underscore hc
  obtain ⟨hi, h⟩ := append_underscore_inj (hnu i1) (hnu i2) h
  obtain ⟨hw, h⟩ := append_underscore_inj (hnu w1) (hnu w2) h
  obtain ⟨hh, hf⟩ := append_underscore_inj (hnu h1) (hnu h2) h
  exact ⟨intRepr_injective hi, intRepr_injective hw, intRepr_injective hh, hf⟩

/-- C5: two successive render-cache lookups with the same
(index, width-cells, height-cells, scale-formatted-to-two-decimals) tuple
return the same `SixelResult` and the second is a cache hit (so the sixel
encoder is not invoked again for that key); two lookups whose tuples differ
in any field use distinct keys, and when the second key is absent from the
initial cache the second lookup is a miss — the entry stored by the first
lookup is never served for it. -/
theorem render_cache_key_behavior {Img : Type}
    (render : Img → Int → Int → CellDim → SixelResult) (m : GoModel Img)
    (i1 w1 h1 : Int) (s1 : ℚ) (i2 w2 h2 : Int) (s2 : ℚ) :
    ((i1, w1, h1, fmt2 s1) = (i2, w2, h2, fmt2 s2) →
      (getSixelContentWithDimensions render
          (getSixelContentWithDimensions render m i1 w1 h1 s1).2.1 i2 w2 h2 s2).1 =
        (getSixelContentWithDimensions render m i1 w1 h1 s1).1 ∧
      (getSixelContentWithDimensions render
          (getSixelContentWithDimensions render m i1 w1 h1 s1).2.1 i2 w2 h2 s2).2.2 =
        true) ∧
    ((i1, w1, h1, fmt2 s1) ≠ (i2, w2, h2, fmt2 s2) →
      sixelCacheKey i1 w1 h1 s1 ≠ sixelCacheKey i2 w2 h2 s2 ∧
      (assocFind m.sixelCache (sixelCacheKey i2 w2 h2 s2) = none →
        (getSixelContentWithDimensions render
            (getSixelContentWithDimensions render m i1 w1 h1 s1).2.1 i2 w2 h2 s2).2.2 =
          false)) := by
  constructor
  · intro heq
    simp only [Prod.mk.injEq] at heq
    obtain ⟨hi, hw, hh, hf⟩ := heq
    have hkey : sixelCacheKey i2 w2 h2 s2 = sixelCacheKey i1 w1 h1 s1 := by
      unfold sixelCacheKey
      rw [hi, hw, hh, hf]
    simp only [getSixelContentWithDimensions, hkey]
    cases hfind : assocFind m.sixelCache (sixelCacheKey i1 w1 h1 s1) with
    | some c => simp [hfind]
    | none => simp [hfind, assocFind]
  · intro hne
    have hkne : sixelCacheKey i1 w1 h1 s1 ≠ sixelCacheKey i2 w2 h2 s2 := by
      intro hk
      obtain ⟨a, b, c, d⟩ := sixelCacheKey_inj hk
      exact hne (by rw [a, b, c, d])
    refine ⟨hkne, ?_⟩
    intro hfresh
    simp only [getSixelContentWithDimensions]
    cases hfind : assocFind m.sixelCache (sixelCacheKey i1 w1 h1 s1) with
    | some c => simp [hfind, hfresh]
    | none =>
      simp only [hfind]
      have : assocFind
          ((sixelCacheKey i1 w1 h1 s1,
            match iconAt m i1 with
            | some img => render img w1 h1 m.cellPx
            | none => emptySixelResult) :: m.sixelCache)
          (sixelCacheKey i2 w2 h2 s2) = none := by
        unfold assocFind
        rw [if_neg hkne]
        exact hfresh
      simp [this]

/-- Witness for C5 on a fresh one-app model: the equal-tuple branch at
`(0, 3, 2, 1/2)` twice, the distinct-tuple branch against `(1, 3, 2, 1/2)`. -/
theorem render_cache_key_behavior_witness :
    (((0 : Int), (3 : Int), (2 : Int), fmt2 (1 / 2 : ℚ)) =
        ((0 : Int), (3 : Int), (2 : Int), fmt2 (1 / 2 : ℚ)) →
      (getSixelContentWithDimensions (fun (_ : Unit) _ _ _ => emptySixelResult)
          (getSixelContentWithDimensions (fun (_ : Unit) _ _ _ => emptySixelResult)
            (newModel Unit [⟨"a".toList, [], []⟩] 2 2 0 false) 0 3 2 (1 / 2)).2.1
          0 3 2 (1 / 2)).1 =
        (getSixelContentWithDimensions (fun (_ : Unit) _ _ _ => emptySixelResult)
          (newModel Unit [⟨"a".toList, [], []⟩] 2 2 0 false) 0 3 2 (1 / 2)).1 ∧
      (getSixelContentWithDimensions (fun (_ : Unit) _ _ _ => emptySixelResult)
          (getSixelContentWithDimensions (fun (_ : Unit) _ _ _ => emptySixelResult)
            (newModel Unit [⟨"a".toList, [], []⟩] 2 2 0 false) 0 3 2 (1 / 2)).2.1
          0 3 2 (1 / 2)).2.2 = true) :=
  (render_cache_key_behavior (fun (_ : Unit) _ _ _ => emptySixelResult)
    (newModel Unit [⟨"a".toList, [], []⟩] 2 2 0 false) 0 3 2 (1 / 2) 0 3 2 (1 / 2)).1

/-! ## Claim C2: geometry changes fully invalidate the render cache -/

/-- The model returned by a render-cache lookup: unchanged on a hit, or the
same model with the freshly computed entry prepended on a miss. -/
theorem getSixel_model_cases {Img : Type}
    (render : Img → Int → Int → CellDim → SixelResult) (m : GoModel Img)
    (index w h : Int) (s : ℚ) :
    (getSixelContentWithDimensions render m index w h s).2.1 = m ∨
    (getSixelContentWithDimensions render m index w h s).2.1 =
      { m with sixelCache :=
          (sixelCacheKey index w h s,
            match iconAt m index with
            | some img => render img w h m.cellPx
            | none => emptySixelResult) :: m.sixelCache } := by
  cases hfind : assocFind m.sixelCache (sixelCacheKey index w h s) with
  | some c =>
    left
    unfold getSixelContentWithDimensions
    dsimp only
    rw [hfind]
  | none =>
    right
    unfold getSixelContentWithDimensions
    dsimp only
    rw [hfind]

/-- Every step of the modelled application preserves the geometry-consistency
of the render cache: lookups insert entries computed under the current
geometry; an accepted geometry message replaces the cache by the empty map;
everything else leaves cache and geometry untouched. -/
theorem appStep_preserves_cacheConsistent {Img : Type}
    (render : Img → Int → Int → CellDim → SixelResult) {m m' : GoModel Img}
    (hstep : AppStep render m m') (hm : cacheConsistent render m) :
    cacheConsistent render m' := by
  cases hstep with
  | msg msg =>
    cases msg with
    | windowSize w h =>
      simp only [update]
      split
      · exact hm
      · exact hm
    | terminalGeometry d =>
      simp only [update]
      split
      · exact hm
      · intro kv hkv
        exact absurd hkv (List.not_mem_nil _)
    | iconsLoaded ic => exact hm
  | lookup index w h scale =>
    rcases getSixel_model_cases render m index w h scale with hc | hc
    · rw [hc]
      exact hm
    · rw [hc]
      intro kv hkv
      rcases List.mem_cons.mp hkv with hkv | hkv
      · rw [hkv]
        cases hic : iconAt m index with
        | some img => exact Or.inr ⟨img, w, h, rfl⟩
        | none => exact Or.inl rfl
      · exact hm kv hkv
  | drawn => exact hm

/-- C2: whenever an accepted geometry value (cell pixel width or height)
differs from the previously accepted one, the render cache becomes empty and
`SixelsDrawn` is reset to `false` (forcing a full redraw), with the new
geometry accepted; consequently, in every state reachable from a fresh
model, every render-cache entry was computed under the currently accepted
geometry. -/
theorem geometry_change_invalidates_cache {Img : Type}
    (render : Img → Int → Int → CellDim → SixelResult) :
    (∀ (m : GoModel Img) (d : CellDim),
        (d.width ≠ m.cellPx.width ∨ d.height ≠ m.cellPx.height) →
        (update m (Msg.terminalGeometry d)).sixelCache = [] ∧
        (update m (Msg.terminalGeometry d)).sixelsDrawn = false ∧
        (update m (Msg.terminalGeometry d)).cellPx = d) ∧
    (∀ m : GoModel Img, ReachableModel render m → cacheConsistent render m) := by
  constructor
  · intro m d hd
    simp only [update]
    have hcond : ¬(m.cellPx.width = d.width ∧ m.cellPx.height = d.height ∧
        m.ready = true) := by
      rintro ⟨h1, h2, _⟩
      rcases hd with hd | hd
      · exact hd h1.symm
      · exact hd h2.symm
    rw [if_neg hcond]
    exact ⟨rfl, rfl, rfl⟩
  · rintro m ⟨apps, cols, rows, pad, border, hsteps⟩
    induction hsteps with
    | refl =>
      intro kv hkv
      exact absurd hkv (List.not_mem_nil _)
    | tail _ step ih =>
      exact appStep_preserves_cacheConsistent render step ih

/-- Witness for C2 on a fresh model receiving a first real geometry. -/
theorem geometry_change_invalidates_cache_witness :
    ((⟨10, 20⟩ : CellDim).width ≠
        (newModel Unit [] 1 1 0 false).cellPx.width ∨
      (⟨10, 20⟩ : CellDim).height ≠
        (newModel Unit [] 1 1 0 false).cellPx.height) ∧
    ((update (newModel Unit [] 1 1 0 false)
        (Msg.terminalGeometry ⟨10, 20⟩)).sixelCache = [] ∧
     (update (newModel Unit [] 1 1 0 false)
        (Msg.terminalGeometry ⟨10, 20⟩)).sixelsDrawn = false ∧
     (update (newModel Unit [] 1 1 0 false)
        (Msg.terminalGeometry ⟨10, 20⟩)).cellPx = ⟨10, 20⟩) :=
  ⟨Or.inl (by norm_num [newModel]),
   (geometry_change_invalidates_cache
      (fun (_ : Unit) _ _ _ => emptySixelResult)).1
     (newModel Unit [] 1 1 0 false) ⟨10, 20⟩ (Or.inl (by norm_num [newModel]))⟩

/-! ## Claim C1: resolver returns the first-encountered highest-scoring
candidate; score cap of partial matches -/

/-- The candidate list the scan of `AutoDetectPackage` effectively ranges
over: the processed package lines that are non-empty. -/
def adpCands (lines : List GoStr) : List GoStr :=
  (lines.map adpProcessLine).filter fun l => !l.isEmpty

/-- The score `AutoDetectPackage` computes for one candidate. -/
def adpScore (search cand : GoStr) : Int :=
  calculateMatchScore (goToLower cand) search

theorem adpCands_cons (l : GoStr) (ls : List GoStr) :
    adpCands (l :: ls) =
      if (adpProcessLine l).isEmpty then adpCands ls
      else adpProcessLine l :: adpCands ls := by
  simp only [adpCands, List.map_cons, List.filter_cons]
  by_cases h : (adpProcessLine l).isEmpty = true
  · rw [if_pos h, if_neg (by simp [h])]
  · rw [if_neg h, if_pos (by simp [h])]

/-- Invariant of the selection loop of `AutoDetectPackage`: either no
candidate beats the running score and the accumulator survives, or the
result is the first candidate attaining the (strictly improved) maximum. -/
theorem adpScan_spec (search : GoStr) (lines : List GoStr) (best : GoStr)
    (score : Int) :
    (adpScan search lines best score = (best, score) ∧
      ∀ c ∈ adpCands lines, adpScore search c ≤ score) ∨
    (∃ j, ∃ hj : j < (adpCands lines).length,
      adpScan search lines best score =
        ((adpCands lines).get ⟨j, hj⟩,
         adpScore search ((adpCands lines).get ⟨j, hj⟩)) ∧
      score < adpScore search ((adpCands lines).get ⟨j, hj⟩) ∧
      (∀ c ∈ adpCands lines,
        adpScore search c ≤ adpScore search ((adpCands lines).get ⟨j, hj⟩)) ∧
      (∀ k (hk : k < (adpCands lines).length), k < j →
        adpScore search ((adpCands lines).get ⟨k, hk⟩) <
          adpScore search ((adpCands lines).get ⟨j, hj⟩))) := by
  induction lines generalizing best score with
  | nil =>
    left
    refine ⟨rfl, ?_⟩
    intro c hc
    simp [adpCands] at hc
  | cons l ls ih =>
    by_cases hline : adpProcessLine l = []
    · have hc : adpCands (l :: ls) = adpCands ls := by
        rw [adpCands_cons, if_pos (by simp [hline])]
      have hstep : adpScan search (l :: ls) best score =
          adpScan search ls best score := by
        conv_lhs => rw [adpScan]
        rw [if_pos hline]
      rw [hstep, hc]
      exact ih best score
    · have hc : adpCands (l :: ls) = adpProcessLine l :: adpCands ls := by
        rw [adpCands_cons, if_neg (by simp [hline])]
      by_cases hlt : score < adpScore search (adpProcessLine l)
      · have hstep : adpScan search (l :: ls) best score =
            adpScan search ls (adpProcessLine l) (adpScore search (adpProcessLine l)) := by
          conv_lhs => rw [adpScan]
          rw [if_neg hline]
          unfold adpScore at hlt
          rw [if_pos hlt]
          rfl
        rw [hstep, hc]
        rcases ih (adpProcessLine l) (adpScore search (adpProcessLine l)) with
          ⟨heq, hall⟩ | ⟨j, hj, heq, hlt', hall, hfirst⟩
        · right
          refine ⟨0, by simp, ?_, ?_, ?_, ?_⟩
          · simpa using heq
          · simpa using hlt
          · intro c hc'
            rcases List.mem_cons.mp hc' with rfl | hc'
            · simp
            · simpa using hall c hc'
          · intro k hk hk0
            omega
        · right
          refine ⟨j + 1, by simpa using Nat.succ_lt_succ hj, ?_, ?_, ?_, ?_⟩
          · simpa using heq
          · simp only [List.get_cons_succ]
            exact lt_trans hlt hlt'
          · intro c hc'
            simp only [List.get_cons_succ]
            rcases List.mem_cons.mp hc' with rfl | hc'
            · exact le_of_lt hlt'
            · exact hall c hc'
          · intro k hk hkj
            cases k with
            | zero =>
              simp only [List.get_cons_zero, List.get_cons_succ]
              exact hlt'
            | succ k' =>
              simp only [List.get_cons_succ]
              exact hfirst k' (by simpa using Nat.lt_of_succ_lt_succ hk)
                (Nat.lt_of_succ_lt_succ hkj)
      · have hstep : adpScan search (l :: ls) best score =
            adpScan search ls best score := by
          conv_lhs => rw [adpScan]
          rw [if_neg hline]
          unfold adpScore at hlt
          rw [if_neg hlt]
        rw [hstep, hc]
        rcases ih best score with ⟨heq, hall⟩ | ⟨j, hj, heq, hlt', hall, hfirst⟩
        · left
          refine ⟨heq, ?_⟩
          intro c hc'
          rcases List.mem_cons.mp hc' with rfl | hc'
          · exact not_lt.mp hlt
          · exact hall c hc'
        · right
          refine ⟨j + 1, by simpa using Nat.succ_lt_succ hj, ?_, ?_, ?_, ?_⟩
          · simpa using heq
          · simp only [List.get_cons_succ]
            exact hlt'
          · intro c hc'
            simp only [List.get_cons_succ]
            rcases List.mem_cons.mp hc' with rfl | hc'
            · exact le_of_lt (lt_of_le_of_lt (not_lt.mp hlt) hlt')
            · exact hall c hc'
          · intro k hk hkj
            cases k with
            | zero =>
              simp only [List.get_cons_zero, List.get_cons_succ]
              exact lt_of_le_of_lt (not_lt.mp hlt) hlt'
            | succ k' =>
              simp only [List.get_cons_succ]
              exact hfirst k' (by simpa using Nat.lt_of_succ_lt_succ hk)
                (Nat.lt_of_succ_lt_succ hkj)

/-- C1 (amended): whenever `AutoDetectPackage` succeeds it returns the
first-encountered candidate of strictly highest score (every candidate
scores no higher, every earlier candidate scores strictly lower, and the
returned score passes the minimum-confidence bar of 2); and — restricted to
search names whose characters are at most two UTF-8 bytes wide (in
particular all ASCII names) — no candidate, exact or partial, can score
above the exact-match score 100. -/
theorem autoDetectPackage_first_argmax :
    (∀ output appName best,
      autoDetectPackage output appName = some best →
      2 ≤ adpScore (normalizeAppName appName) best ∧
      ∃ j, ∃ hj : j < (adpCands (goLines output)).length,
        (adpCands (goLines output)).get ⟨j, hj⟩ = best ∧
        (∀ c ∈ adpCands (goLines output),
          adpScore (normalizeAppName appName) c ≤
            adpScore (normalizeAppName appName) best) ∧
        (∀ k (hk : k < (adpCands (goLines output)).length), k < j →
          adpScore (normalizeAppName appName) ((adpCands (goLines output)).get ⟨k, hk⟩) <
            adpScore (normalizeAppName appName) best)) ∧
    (∀ pkg search : GoStr, (∀ c ∈ search, utf8Len c ≤ 2) →
      calculateMatchScore pkg search ≤ 100) := by
  constructor
  · intro output appName best hsome
    unfold autoDetectPackage at hsome
    dsimp only at hsome
    split at hsome
    · exact absurd hsome (by simp)
    · next hcond =>
      push_neg at hcond
      obtain ⟨hne, hge⟩ := hcond
      rcases adpScan_spec (normalizeAppName appName) (goLines output) [] 0 with
        ⟨heq, _⟩ | ⟨j, hj, heq, _, hall, hfirst⟩
      · exfalso
        rw [heq] at hne
        exact hne rfl
      · have hbest : best = (adpCands (goLines output)).get ⟨j, hj⟩ := by
          have := congrArg Prod.fst heq
          simp only at this
          rw [← Option.some.injEq]
          rw [← hsome]
          simp [this]
        subst hbest
        refine ⟨?_, j, hj, rfl, ?_, ?_⟩
        · have := congrArg Prod.snd heq
          simp only at this
          rw [this] at hge
          exact hge
        · intro c hc'
          exact hall c hc'
        · intro k hk hkj
          exact hfirst k hk hkj
  · intro pkg search hbytes
    unfold calculateMatchScore
    dsimp only
    split
    · norm_num
    · have hcount : (search.countP fun c =>
          decide (2 < utf8Len c) && strContains (goRemoveChar '.' pkg) [c]) = 0 := by
        rw [List.countP_eq_zero]
        intro c hc
        have := hbytes c hc
        simp only [Bool.and_eq_true, decide_eq_true_eq]
        intro hcontra
        omega
      rw [hcount]
      have hlen : 0 ≤ Int.tdiv (goLen pkg) 10 := by
        apply Int.tdiv_nonneg
        · unfold goLen
          exact Int.natCast_nonneg _
        · norm_num
      split_ifs <;> omega

/-- Counterexample for C1's score-cap conjunct as stated: with the 11-CJK
search name `世…世`, the exact dot-stripped match scores 100 while the merely
partial candidate `世…世世` (12 characters, not dot-strip-equal to the
search) scores 102 — the per-character bonus applies to every 3-byte
character, so a partial match outscores the exact-match score. -/
theorem exact_match_score_cap_cex :
    calculateMatchScore (List.replicate 11 '世') (List.replicate 11 '世') = 100 ∧
    goRemoveChar '.' (List.replicate 12 '世') ≠ List.replicate 11 '世' ∧
    calculateMatchScore (List.replicate 12 '世') (List.replicate 11 '世') = 102 ∧
    calculateMatchScore (List.replicate 11 '世') (List.replicate 11 '世') <
      calculateMatchScore (List.replicate 12 '世') (List.replicate 11 '世') := by
  refine ⟨by decide, by decide, by decide, by decide⟩

/-- Witness for C1 on a one-line `pm list packages` output. -/
theorem autoDetectPackage_first_argmax_witness :
    autoDetectPackage ("package:com.android.chrome".toList) ("Chrome".toList) =
      some ("com.android.chrome".toList) ∧
    (2 ≤ adpScore (normalizeAppName ("Chrome".toList)) ("com.android.chrome".toList) ∧
      ∃ j, ∃ hj : j < (adpCands (goLines ("package:com.android.chrome".toList))).length,
        (adpCands (goLines ("package:com.android.chrome".toList))).get ⟨j, hj⟩ =
          "com.android.chrome".toList ∧
        (∀ c ∈ adpCands (goLines ("package:com.android.chrome".toList)),
          adpScore (normalizeAppName ("Chrome".toList)) c ≤
            adpScore (normalizeAppName ("Chrome".toList)) ("com.android.chrome".toList)) ∧
        (∀ k (hk : k < (adpCands (goLines ("package:com.android.chrome".toList))).length),
          k < j →
          adpScore (normalizeAppName ("Chrome".toList))
              ((adpCands (goLines ("package:com.android.chrome".toList))).get ⟨k, hk⟩) <
            adpScore (normalizeAppName ("Chrome".toList)) ("com.android.chrome".toList))) :=
  ⟨by decide,
   autoDetectPackage_first_argmax.1 ("package:com.android.chrome".toList)
     ("Chrome".toList) ("com.android.chrome".toList) (by decide)⟩

/-! ## Claim C6: aapt2 icon preference order -/

/-- What the first loop of `getIconPathFromAAPT2` yields for one line: the
icon assignment of an `application:` line ending in `.png` (kept) or `.xml`
(substituted by `.png`); `none` for every other line, including an
`application:` line whose icon has any other extension. -/
def appLineIconResult (l : GoStr) : Option GoStr :=
  if goStartsWith ("application:".toList) l then
    match extractIconAssign l with
    | some iconPath =>
        if goEndsWith (".xml".toList) iconPath then
          some (goTrimSuffix (".xml".toList) iconPath ++ ".png".toList)
        else if goEndsWith (".png".toList) iconPath then some iconPath
        else none
    | none => none
  else none

theorem aaptAppLineIcon_eq_findSome (ls : List GoStr) :
    aaptAppLineIcon ls = ls.findSome? appLineIconResult := by
  induction ls with
  | nil => rfl
  | cons l rest ih =>
    rw [List.findSome?_cons]
    by_cases happ : goStartsWith ("application:".toList) l = true
    · cases hex : extractIconAssign l with
      | some iconPath =>
        simp only [aaptAppLineIcon, appLineIconResult, hex]
        rw [if_pos happ]
        by_cases hxml : goEndsWith (".xml".toList) iconPath = true
        · rw [if_pos hxml]
          rw [if_pos happ, if_pos hxml]
        · rw [if_neg hxml]
          by_cases hpng : goEndsWith (".png".toList) iconPath = true
          · rw [if_pos hpng]
            rw [if_pos happ, if_neg hxml, if_pos hpng]
          · rw [if_neg hpng]
            rw [if_pos happ, if_neg hxml, if_neg hpng]
            exact ih
      | none =>
        simp only [aaptAppLineIcon, appLineIconResult, hex]
        rw [if_pos happ]
        rw [if_pos happ]
        exact ih
    · simp only [aaptAppLineIcon, appLineIconResult]
      rw [if_neg happ]
      rw [if_neg happ]
      exact ih

theorem goEndsWith_ne_nil {suf s : GoStr} (hsuf : suf ≠ [])
    (h : goEndsWith suf s = true) : s ≠ [] := by
  intro hs
  subst hs
  unfold goEndsWith at h
  have := listStarts_iff.mp h
  simp only [List.reverse_nil] at this
  exact hsuf (by simpa using List.prefix_nil.mp this)

/-- Invariant of the fallback loop of `getIconPathFromAAPT2` when every
parsed density line declares a `.png` path: either nothing beats the running
density and the accumulator survives, or the result is the first declaration
attaining the (strictly improved) highest density. -/
theorem aaptFallbackScan_spec (ls : List GoStr) (icon : GoStr) (res : Int)
    (hpng : ∀ p ∈ ls.filterMap parseAppIconLine,
      goEndsWith (".png".toList) p.2 = true) :
    (aaptFallbackScan ls icon res = (icon, res) ∧
      ∀ p ∈ ls.filterMap parseAppIconLine, p.1 ≤ res) ∨
    (∃ j, ∃ hj : j < (ls.filterMap parseAppIconLine).length,
      aaptFallbackScan ls icon res =
        (((ls.filterMap parseAppIconLine).get ⟨j, hj⟩).2,
         ((ls.filterMap parseAppIconLine).get ⟨j, hj⟩).1) ∧
      res < ((ls.filterMap parseAppIconLine).get ⟨j, hj⟩).1 ∧
      (∀ p ∈ ls.filterMap parseAppIconLine,
        p.1 ≤ ((ls.filterMap parseAppIconLine).get ⟨j, hj⟩).1) ∧
      (∀ k (hk : k < (ls.filterMap parseAppIconLine).length), k < j →
        ((ls.filterMap parseAppIconLine).get ⟨k, hk⟩).1 <
          ((ls.filterMap parseAppIconLine).get ⟨j, hj⟩).1)) := by
  induction ls generalizing icon res with
  | nil =>
    left
    refine ⟨rfl, ?_⟩
    intro p hp
    simp at hp
  | cons l ls' ih =>
    cases hparse : parseAppIconLine l with
    | none =>
      have hfm : (l :: ls').filterMap parseAppIconLine =
          ls'.filterMap parseAppIconLine := by
        rw [List.filterMap_cons, hparse]
      have hstep : aaptFallbackScan (l :: ls') icon res =
          aaptFallbackScan ls' icon res := by
        conv_lhs => rw [aaptFallbackScan]
        rw [hparse]
      rw [hstep, hfm]
      exact ih icon res (by rw [hfm] at hpng; exact hpng)
    | some pr =>
      obtain ⟨r, path⟩ := pr
      have hfm : (l :: ls').filterMap parseAppIconLine =
          (r, path) :: ls'.filterMap parseAppIconLine := by
        rw [List.filterMap_cons, hparse]
      have hpng' : goEndsWith (".png".toList) path = true := by
        have := hpng (r, path) (by rw [hfm]; exact List.mem_cons_self _ _)
        exact this
      have hpngrest : ∀ p ∈ ls'.filterMap parseAppIconLine,
          goEndsWith (".png".toList) p.2 = true := by
        intro p hp
        exact hpng p (by rw [hfm]; exact List.mem_cons_of_mem _ hp)
      by_cases hlt : res < r
      · have hstep : aaptFallbackScan (l :: ls') icon res =
            aaptFallbackScan ls' path r := by
          conv_lhs => rw [aaptFallbackScan]
          rw [hparse]
          dsimp only
          rw [hpng', if_pos hlt]
          rfl
        rw [hstep, hfm]
        rcases ih path r hpngrest with ⟨heq, hall⟩ | ⟨j, hj, heq, hlt', hall, hfirst⟩
        · right
          refine ⟨0, by simp, ?_, ?_, ?_, ?_⟩
          · simpa using heq
          · simpa using hlt
          · intro p hp
            rcases List.mem_cons.mp hp with rfl | hp
            · simp
            · simpa using hall p hp
          · intro k hk hk0
            omega
        · right
          refine ⟨j + 1, by simpa using Nat.succ_lt_succ hj, ?_, ?_, ?_, ?_⟩
          · simpa using heq
          · simp only [List.get_cons_succ]
            exact lt_trans hlt hlt'
          · intro p hp
            simp only [List.get_cons_succ]
            rcases List.mem_cons.mp hp with rfl | hp
            · exact le_of_lt hlt'
            · exact hall p hp
          · intro k hk hkj
            cases k with
            | zero =>
              simp only [List.get_cons_zero, List.get_cons_succ]
              exact hlt'
            | succ k' =>
              simp only [List.get_cons_succ]
              exact hfirst k' (by simpa using Nat.lt_of_succ_lt_succ hk)
                (Nat.lt_of_succ_lt_succ hkj)
      · have hstep : aaptFallbackScan (l :: ls') icon res =
            aaptFallbackScan ls' icon res := by
          conv_lhs => rw [aaptFallbackScan]
          rw [hparse]
          dsimp only
          rw [hpng', if_neg hlt, if_pos rfl]
        rw [hstep, hfm]
        rcases ih icon res hpngrest with ⟨heq, hall⟩ | ⟨j, hj, heq, hlt', hall, hfirst⟩
        · left
          refine ⟨heq, ?_⟩
          intro p hp
          rcases List.mem_cons.mp hp with rfl | hp
          · exact not_lt.mp hlt
          · exact hall p hp
        · right
          refine ⟨j + 1, by simpa using Nat.succ_lt_succ hj, ?_, ?_, ?_, ?_⟩
          · simpa using heq
          · simp only [List.get_cons_succ]
            exact hlt'
          · intro p hp
            simp only [List.get_cons_succ]
            rcases List.mem_cons.mp hp with rfl | hp
            · exact le_of_lt (lt_of_le_of_lt (not_lt.mp hlt) hlt')
            · exact hall p hp
          · intro k hk hkj
            cases k with
            | zero =>
              simp only [List.get_cons_zero, List.get_cons_succ]
              exact lt_of_le_of_lt (not_lt.mp hlt) hlt'
            | succ k' =>
              simp only [List.get_cons_succ]
              exact hfirst k' (by simpa using Nat.lt_of_succ_lt_succ hk)
                (Nat.lt_of_succ_lt_succ hkj)

/-- C6 (amended): when some `application:` line carries an icon assignment
the first loop recognizes (a `.png` path, or an `.xml` path substituted by
`.png`), the first such assignment is returned in preference to every
density-suffixed declaration; when no such line exists and every
density-suffixed `application-icon-` line declares a `.png` path with a
positive density, the declaration with the highest declared density (the
first among equals) is returned. (When `.xml` and `.png` density lines mix,
the code does not return the highest-density declaration — see the
counterexample.) -/
theorem getIconPathFromAAPT2_pref :
    (∀ output p,
      (goLines output).findSome? appLineIconResult = some p →
      getIconPathFromAAPT2 output = some p) ∧
    (∀ output,
      (goLines output).findSome? appLineIconResult = none →
      (∀ q ∈ (goLines output).filterMap parseAppIconLine,
        goEndsWith (".png".toList) q.2 = true ∧ 0 < q.1) →
      ∀ j, ∀ hj : j < ((goLines output).filterMap parseAppIconLine).length,
        (∀ q ∈ (goLines output).filterMap parseAppIconLine,
          q.1 ≤ (((goLines output).filterMap parseAppIconLine).get ⟨j, hj⟩).1) →
        (∀ k (hk : k < ((goLines output).filterMap parseAppIconLine).length), k < j →
          (((goLines output).filterMap parseAppIconLine).get ⟨k, hk⟩).1 <
            (((goLines output).filterMap parseAppIconLine).get ⟨j, hj⟩).1) →
        getIconPathFromAAPT2 output =
          some ((((goLines output).filterMap parseAppIconLine).get ⟨j, hj⟩).2)) := by
  constructor
  · intro output p hfound
    unfold getIconPathFromAAPT2
    rw [aaptAppLineIcon_eq_findSome, hfound]
  · intro output hnone hq j hj hmax hfirstmax
    unfold getIconPathFromAAPT2
    rw [aaptAppLineIcon_eq_findSome, hnone]
    rcases aaptFallbackScan_spec (goLines output) [] 0
        (fun q hq' => (hq q hq').1) with
      ⟨_, hall⟩ | ⟨j', hj', heq, _, hall, hfirst⟩
    · exfalso
      have hmem := List.get_mem ((goLines output).filterMap parseAppIconLine) j hj
      have h1 := (hq _ hmem).2
      have h2 := hall _ hmem
      omega
    · have hjj : j = j' := by
        rcases lt_trichotomy j j' with h | h | h
        · exfalso
          have h1 := hfirst j (lt_trans h hj') h
          have h2 := hmax _ (List.get_mem _ j' hj')
          omega
        · exact h
        · exfalso
          have h1 := hfirstmax j' (lt_trans h hj) h
          have h2 := hall _ (List.get_mem _ j hj)
          omega
      subst hjj
      rw [heq]
      have hpath := (hq _ (List.get_mem _ j hj)).1
      have hne := goEndsWith_ne_nil (by decide) hpath
      dsimp only
      rw [if_neg (by simpa using hne)]

/-- Counterexample for C6 as stated: with no `application:` line and the two
density declarations `application-icon-320:'res/a.png'` and
`application-icon-640:'res/b.xml'`, the highest declared density (640) names
the vector path whose raster substitute is `res/b.png`, yet the function
returns the lower-density `res/a.png` — the `.xml` branch runs only while no
candidate is recorded, so a `.png` of lower density recorded first wins. -/
theorem getIconPathFromAAPT2_density_cex :
    parseAppIconLine ("application-icon-320:".toList ++ [apostChar]
        ++ "res/a.png".toList ++ [apostChar]) = some (320, "res/a.png".toList) ∧
    parseAppIconLine ("application-icon-640:".toList ++ [apostChar]
        ++ "res/b.xml".toList ++ [apostChar]) = some (640, "res/b.xml".toList) ∧
    getIconPathFromAAPT2 ("application-icon-320:".toList ++ [apostChar]
        ++ "res/a.png".toList ++ [apostChar] ++ ['\n']
        ++ "application-icon-640:".toList ++ [apostChar]
        ++ "res/b.xml".toList ++ [apostChar]) = some ("res/a.png".toList) ∧
    ("res/a.png".toList : GoStr) ≠
      goTrimSuffix (".xml".toList) ("res/b.xml".toList) ++ ".png".toList := by
  refine ⟨by decide, by decide, by decide, by decide⟩

/-- Witness for C6: the preference of a top-level `application:` icon over a
density line, on concrete output. -/
theorem getIconPathFromAAPT2_pref_witness :
    (goLines ("application: label=x icon=".toList ++ [apostChar]
        ++ "res/ic.png".toList ++ [apostChar] ++ ['\n']
        ++ "application-icon-640:".toList ++ [apostChar]
        ++ "res/b.png".toList ++ [apostChar])).findSome? appLineIconResult =
      some ("res/ic.png".toList) ∧
    getIconPathFromAAPT2 ("application: label=x icon=".toList ++ [apostChar]
        ++ "res/ic.png".toList ++ [apostChar] ++ ['\n']
        ++ "application-icon-640:".toList ++ [apostChar]
        ++ "res/b.png".toList ++ [apostChar]) = some ("res/ic.png".toList) :=
  ⟨by decide,
   getIconPathFromAAPT2_pref.1 _ ("res/ic.png".toList) (by decide)⟩

/-! ## Claim C3: drawable fallback wins when mipmaps and tools are absent -/

theorem lookupFile_mem {Img : Type} {fm : List (GoStr × ZipAsset Img)}
    {name : GoStr} {a : ZipAsset Img} (h : lookupFile fm name = some a) :
    (name, a) ∈ fm := by
  induction fm with
  | nil => exact absurd h (by simp [lookupFile])
  | cons kv rest ih =>
    obtain ⟨n, b⟩ := kv
    unfold lookupFile at h
    split at h
    · next hn =>
      injection h with h
      subst hn h
      exact List.mem_cons_self _ _
    · exact List.mem_cons_of_mem _ (ih h)

theorem mipmapPatterns_contain :
    ∀ p ∈ mipmapPatterns, strContains p ("mipmap".toList) = true := by decide

theorem drawablePatterns_no_mipmap :
    ∀ p ∈ drawablePatterns, strContains p ("mipmap".toList) = false := by decide

theorem tryPatterns_none {Img : Type} {fm : List (GoStr × ZipAsset Img)}
    {pats : List GoStr} (h : ∀ p ∈ pats, lookupFile fm p = none) :
    tryPatterns fm pats = none := by
  induction pats with
  | nil => rfl
  | cons p rest ih =>
    unfold tryPatterns
    rw [h p (List.mem_cons_self _ _)]
    exact ih fun q hq => h q (List.mem_cons_of_mem _ hq)

theorem tryPatterns_succeeds {Img : Type} {fm : List (GoStr × ZipAsset Img)}
    {pats : List GoStr}
    (h : ∃ p ∈ pats, ∃ a, lookupFile fm p = some a ∧ a.decode ≠ none) :
    ∃ img q, tryPatterns fm pats = some (img, q) ∧ q ∈ pats ∧
      ∃ a, lookupFile fm q = some a ∧ a.decode = some img := by
  induction pats with
  | nil =>
    obtain ⟨p, hp, _⟩ := h
    exact absurd hp (List.not_mem_nil _)
  | cons p rest ih =>
    cases hl : lookupFile fm p with
    | some a =>
      cases hd : a.decode with
      | some img =>
        refine ⟨img, p, ?_, List.mem_cons_self _ _, a, hl, hd⟩
        unfold tryPatterns
        rw [hl]
        dsimp only
        rw [hd]
      | none =>
        have hrest : ∃ q ∈ rest, ∃ a, lookupFile fm q = some a ∧ a.decode ≠ none := by
          obtain ⟨p', hp', a', ha', hd'⟩ := h
          rcases List.mem_cons.mp hp' with rfl | hp'
          · rw [hl] at ha'
            injection ha' with ha'
            subst ha'
            exact absurd hd hd'
          · exact ⟨p', hp', a', ha', hd'⟩
        obtain ⟨img, q, htry, hq, hrest'⟩ := ih hrest
        refine ⟨img, q, ?_, List.mem_cons_of_mem _ hq, hrest'⟩
        unfold tryPatterns
        rw [hl]
        dsimp only
        rw [hd]
        exact htry
    | none =>
      have hrest : ∃ q ∈ rest, ∃ a, lookupFile fm q = some a ∧ a.decode ≠ none := by
        obtain ⟨p', hp', a', ha', hd'⟩ := h
        rcases List.mem_cons.mp hp' with rfl | hp'
        · rw [hl] at ha'
          exact absurd ha' (by simp)
        · exact ⟨p', hp', a', ha', hd'⟩
      obtain ⟨img, q, htry, hq, hrest'⟩ := ih hrest
      refine ⟨img, q, ?_, List.mem_cons_of_mem _ hq, hrest'⟩
      unfold tryPatterns
      rw [hl]
      exact htry

/-- C3: when the archive index holds no mipmap-named asset at all, the
OS-introspection collaborator is unavailable or failed, the archive tool is
unavailable or failed, and some conventional drawable ic_launcher path is
present and decodable, `extractIconFromAPK` succeeds and the returned image
comes from one of the fixed drawable-convention paths (strategy 4) — a path
that is not a mipmap probe path (strategy 1) and does not contain `mipmap`
(so the strategy 5 heuristic never produced it). -/
theorem drawable_fallback_order {Img : Type} (fm : List (GoStr × ZipAsset Img))
    (apkPath pkg : GoStr)
    (hNoMip : ∀ kv ∈ fm, strContains kv.1 ("mipmap".toList) = false)
    (hDraw : ∃ p ∈ drawablePatterns, ∃ a, lookupFile fm p = some a ∧ a.decode ≠ none) :
    ∃ img path, extractIconFromAPK fm apkPath pkg none none = some (img, path) ∧
      path ∈ drawablePatterns ∧
      (∃ a, lookupFile fm path = some a ∧ a.decode = some img) ∧
      path ∉ mipmapPatterns ∧
      strContains path ("mipmap".toList) = false := by
  have h1 : ∀ p ∈ mipmapPatterns, lookupFile fm p = none := by
    intro p hp
    cases hl : lookupFile fm p with
    | none => rfl
    | some a =>
      exfalso
      have hfalse := hNoMip (p, a) (lookupFile_mem hl)
      have htrue := mipmapPatterns_contain p hp
      simp only at hfalse htrue
      rw [htrue] at hfalse
      exact Bool.noConfusion hfalse
  obtain ⟨img, q, htry, hq, hrest⟩ := tryPatterns_succeeds hDraw
  refine ⟨img, q, ?_, hq, hrest, ?_, drawablePatterns_no_mipmap q hq⟩
  · unfold extractIconFromAPK
    rw [tryPatterns_none h1]
    dsimp only
    have h2 : (if pkg ≠ [] then
        (none : Option GoStr).bind fun p =>
          if p ≠ [] then tryResolvedPath fm p else none
      else none) = none := by
      split <;> rfl
    rw [h2]
    dsimp only
    rw [htry]
    rfl
  · intro hmem
    have htrue := mipmapPatterns_contain q hmem
    have hfalse := drawablePatterns_no_mipmap q hq
    rw [htrue] at hfalse
    exact Bool.noConfusion hfalse

/-- Witness for C3: an archive holding exactly one entry, the xxxhdpi
drawable launcher icon, with both collaborators failing. -/
theorem drawable_fallback_order_witness :
    (∀ kv ∈ [("res/drawable-xxxhdpi-v4/ic_launcher.png".toList,
        (⟨some 7, 100⟩ : ZipAsset Nat))],
      strContains kv.1 ("mipmap".toList) = false) ∧
    (∃ p ∈ drawablePatterns, ∃ a,
      lookupFile [("res/drawable-xxxhdpi-v4/ic_launcher.png".toList,
        (⟨some 7, 100⟩ : ZipAsset Nat))] p = some a ∧ a.decode ≠ none) ∧
    (∃ img path,
      extractIconFromAPK [("res/drawable-xxxhdpi-v4/ic_launcher.png".toList,
          (⟨some 7, 100⟩ : ZipAsset Nat))]
        ("base.apk".toList) ("com.example".toList) none none = some (img, path) ∧
      path ∈ drawablePatterns ∧
      (∃ a, lookupFile [("res/drawable-xxxhdpi-v4/ic_launcher.png".toList,
          (⟨some 7, 100⟩ : ZipAsset Nat))] path = some a ∧ a.decode = some img) ∧
      path ∉ mipmapPatterns ∧
      strContains path ("mipmap".toList) = false) :=
  ⟨by decide, by decide,
   drawable_fallback_order _ ("base.apk".toList) ("com.example".toList)
     (by decide) (by decide)⟩

/-! ## Claim C4: entry-point discovery block semantics -/

/-- One unfolding step of the `parseMainActivity` scan, phrased with the named
line predicates. -/
theorem pmaGo_cons (pkg l : GoStr) (rest : List GoStr) (im : Bool) (cur : GoStr) :
    pmaGo pkg (l :: rest) im cur =
      if isActivityHeaderLine l && im && !cur.isEmpty then cur
      else
        if hasLauncherLine l &&
            ((if isActivityHeaderLine l then false else im) || hasMainLine l) &&
            !(if isActivityHeaderLine l then lineActivity pkg l else cur).isEmpty then
          (if isActivityHeaderLine l then lineActivity pkg l else cur)
        else
          pmaGo pkg rest
            ((if isActivityHeaderLine l then false else im) || hasMainLine l)
            (if isActivityHeaderLine l then lineActivity pkg l else cur) :=
  rfl

/-- With an empty current activity the scan's result does not depend on the
incoming `inMainFilter` flag. -/
theorem pmaGo_empty_cur_inMain (pkg : GoStr) :
    ∀ (lines : List GoStr) (im1 im2 : Bool),
      pmaGo pkg lines im1 [] = pmaGo pkg lines im2 [] := by
  intro lines
  induction lines with
  | nil => intro im1 im2; simp [pmaGo]
  | cons l rest ih =>
    intro im1 im2
    rw [pmaGo_cons, pmaGo_cons]
    by_cases hH : isActivityHeaderLine l = true
    · simp [hH]
    · have hH' : isActivityHeaderLine l = false := by simpa using hH
      simp [hH']
      exact ih (im1 || hasMainLine l) (im2 || hasMainLine l)

theorem dropWhile_head_false {α : Type} (p : α → Bool) :
    ∀ (l : List α) {h : α} {t : List α}, l.dropWhile p = h :: t → p h = false := by
  intro l
  induction l with
  | nil => intro h t hl; exact absurd hl (by simp)
  | cons a l' ih =>
    intro h t hl
    rw [List.dropWhile_cons] at hl
    split at hl
    · exact ih hl
    · next hpa =>
      injection hl with h1 _
      subst h1
      simpa using hpa

/-- Crossing a headerless block body: the scan returns the activity carried
in when it is non-empty and the main marker was seen (now or inside the
body); otherwise it proceeds past the body into the next block (or the end
of input) with a cleared state. -/
theorem pmaGo_body (pkg : GoStr) (body : List GoStr) :
    ∀ (rest : List GoStr) (im : Bool) (a : GoStr),
      (∀ x ∈ body, isActivityHeaderLine x = false) →
      (rest = [] ∨ ∃ h t, rest = h :: t ∧ isActivityHeaderLine h = true) →
      pmaGo pkg (body ++ rest) im a =
        if !a.isEmpty && (im || blockHasMain body) then a
        else pmaGo pkg rest false [] := by
  induction body with
  | nil =>
    intro rest im a _ hrest
    simp only [List.nil_append, blockHasMain, List.any_nil, Bool.or_false]
    rcases hrest with rfl | ⟨h, t, rfl, hH⟩
    · cases im <;> cases ha : a.isEmpty <;> simp [pmaGo, ha]
    · rw [pmaGo_cons]
      conv_rhs => rw [pmaGo_cons]
      cases im <;> cases ha : a.isEmpty <;> simp [hH, ha]
  | cons b body' ih =>
    intro rest im a hbody hrest
    have hHb : isActivityHeaderLine b = false := hbody b (List.mem_cons_self _ _)
    rw [List.cons_append, pmaGo_cons]
    simp only [hHb, Bool.false_and, Bool.false_eq_true, if_false]
    have hblock : blockHasMain (b :: body') = (hasMainLine b || blockHasMain body') := by
      simp [blockHasMain]
    by_cases hguard :
        (hasLauncherLine b && ((im || hasMainLine b)) && !a.isEmpty) = true
    · rw [if_pos hguard]
      rw [hblock]
      simp only [Bool.and_eq_true, Bool.not_eq_true'] at hguard
      obtain ⟨⟨_, him⟩, haemp⟩ := hguard
      rw [if_pos]
      simp only [Bool.and_eq_true, Bool.not_eq_true', Bool.or_eq_true]
      refine ⟨haemp, ?_⟩
      rcases Bool.or_eq_true _ _ |>.mp him with h | h
      · exact Or.inl h
      · exact Or.inr (Or.inl h)
    · rw [if_neg hguard]
      rw [ih rest (im || hasMainLine b) a
        (fun x hx => hbody x (List.mem_cons_of_mem _ hx)) hrest]
      rw [hblock]
      have : (im || hasMainLine b || blockHasMain body') =
          (im || (hasMainLine b || blockHasMain body')) := by
        cases im <;> cases hasMainLine b <;> cases blockHasMain body' <;> rfl
      rw [this]

/-- C4 (amended): `parseMainActivity` returns the activity of the first
component block (cut at `Activity #` headers) that parses to a non-empty
activity and contains the main-action marker anywhere in the block — the
launcher-category marker causes an immediate in-block return but is not
required, because a matching block is also returned at the next header or at
the end of input. In particular the end-of-input edge case holds: a package
whose only main/launcher component is the last block listed still resolves. -/
theorem parseMainActivity_first_main_block (output pkg : GoStr) :
    parseMainActivity output pkg = specMainActivity pkg (goLines output) := by
  suffices H : ∀ (n : Nat) (lines : List GoStr), lines.length ≤ n →
      pmaGo pkg lines false [] = specMainActivity pkg lines from
    H (goLines output).length (goLines output) le_rfl
  intro n
  induction n with
  | zero =>
    intro lines hl
    have : lines = [] := List.eq_nil_of_length_eq_zero (Nat.le_zero.mp hl)
    subst this
    simp [pmaGo, specMainActivity]
  | succ n ihn =>
    intro lines hl
    cases lines with
    | nil => simp [pmaGo, specMainActivity]
    | cons l rest =>
      by_cases hH : isActivityHeaderLine l = true
      · have hsplit : rest = (rest.takeWhile fun x => !isActivityHeaderLine x) ++
            (rest.dropWhile fun x => !isActivityHeaderLine x) :=
          (List.takeWhile_append_dropWhile _ _).symm
        have hbody : ∀ x ∈ (rest.takeWhile fun x => !isActivityHeaderLine x),
            isActivityHeaderLine x = false := by
          intro x hx
          have := List.mem_takeWhile_imp hx
          simpa using this
        have hrest' : (rest.dropWhile fun x => !isActivityHeaderLine x) = [] ∨
            ∃ h t, (rest.dropWhile fun x => !isActivityHeaderLine x) = h :: t ∧
              isActivityHeaderLine h = true := by
          cases hr : rest.dropWhile fun x => !isActivityHeaderLine x with
          | nil => exact Or.inl rfl
          | cons h t =>
            refine Or.inr ⟨h, t, rfl, ?_⟩
            have := dropWhile_head_false _ rest hr
            simpa using this
        have hlen : (rest.dropWhile fun x => !isActivityHeaderLine x).length ≤ n := by
          have h1 : (rest.dropWhile fun x => !isActivityHeaderLine x).length ≤
              rest.length := (List.dropWhile_sublist _).length_le
          simp only [List.length_cons] at hl
          omega
        rw [pmaGo_cons]
        simp only [hH, Bool.true_and, Bool.false_and, if_true, if_false,
          List.isEmpty_nil, Bool.not_true, Bool.and_false]
        rw [if_neg (by simp)]
        conv_lhs => rw [hsplit]
        by_cases hguard : (hasLauncherLine l && (false || hasMainLine l) &&
            !(lineActivity pkg l).isEmpty) = true
        · rw [if_pos hguard]
          rw [specMainActivity]
          rw [if_pos hH]
          simp only
          simp only [Bool.and_eq_true, Bool.not_eq_true', Bool.or_eq_true,
            Bool.false_or] at hguard
          obtain ⟨⟨_, hmain⟩, haemp⟩ := hguard
          rw [if_pos]
          simp only [Bool.and_eq_true, Bool.not_eq_true', Bool.or_eq_true]
          exact ⟨haemp, Or.inl hmain⟩
        · rw [if_neg hguard]
          rw [pmaGo_body pkg _ _ (false || hasMainLine l) (lineActivity pkg l)
            hbody hrest']
          rw [ihn _ hlen]
          conv_rhs => rw [specMainActivity]
          rw [if_pos hH]
          simp only [Bool.false_or]
      · have hH' : isActivityHeaderLine l = false := by simpa using hH
        rw [pmaGo_cons]
        simp only [hH', Bool.false_and, Bool.false_eq_true, if_false,
          List.isEmpty_nil, Bool.not_true, Bool.and_false]
        rw [pmaGo_empty_cur_inMain pkg rest (false || hasMainLine l) false]
        rw [ihn rest (by simp only [List.length_cons] at hl; omega)]
        conv_rhs => rw [specMainActivity]
        rw [if_neg hH]

/-- Counterexample for C4 as stated: block `#0` carries only the main-action
marker (no launcher category), block `#1` carries both; the first block whose
component block contains both markers is `#1` with activity `com.foo.B`, yet
the scan returns `com.foo.A` at the `Activity #1` boundary. -/
theorem parseMainActivity_launcher_not_required_cex :
    parseMainActivity
        (("Activity #0: com.foo/.A\nandroid.intent.action.MAIN\n"
          ++ "Activity #1: com.foo/.B\nandroid.intent.action.MAIN\n"
          ++ "android.intent.category.LAUNCHER").toList)
        ("com.foo".toList) = "com.foo.A".toList ∧
    hasLauncherLine ("Activity #0: com.foo/.A".toList) = false ∧
    hasLauncherLine ("android.intent.action.MAIN".toList) = false ∧
    lineActivity ("com.foo".toList) ("Activity #1: com.foo/.B".toList) =
      "com.foo.B".toList ∧
    ("com.foo.A".toList : GoStr) ≠ "com.foo.B".toList := by
  refine ⟨by decide, by decide, by decide, by decide, by decide⟩

end TooieShelf
